import Mathlib

/-!
Shallow embedding of `src/starred-watcher.js`.

The SQLite table `lifelogs` is modelled as a function store
`String → Option Row`; `datetime('now')` timestamps are modelled by a
Nat clock threaded through the scan state; the opaque `updatedAt`
version strings are modelled as `Option Nat` (the code only compares
them with `!==`, and the spec's monotonicity hypotheses need an order);
the OpenAI scoring service, the two webhook sinks and the secondary
summarizer are modelled as oracle streams indexed by a call counter.
A thrown JavaScript exception that aborts a run is modelled by an
`aborted` flag on the state: once set, no further step has any effect.
The `ratio >= 0.8` float comparison of the early-stop heuristic is
modelled by the exact inequality `5 * count >= 4 * length`.
-/

/-- Result object of the OpenAI sentiment call (`callOpenAI`).  The code
keeps it as the JSON text `analysis_json`; we keep the parsed object, so
`JSON.stringify` / `JSON.parse` round-trips are identities. -/
structure Analysis where
  sentiment : String
  confidence : ℚ
  summary : String
deriving DecidableEq

/-- A record as returned by the Limitless listing endpoint. -/
structure Lifelog where
  id : String
  title : Option String
  markdown : Option String
  startTime : Option String
  endTime : Option String
  updatedAt : Option Nat
  isStarred : Bool
deriving DecidableEq

/-- A row of the `lifelogs` table. -/
structure Row where
  id : String
  title : Option String
  markdown : Option String
  startTime : Option String
  endTime : Option String
  updatedAt : Option Nat
  isStarred : Nat
  analysis_json : Option Analysis
  webhook_last_updatedAt : Option Nat
  webhook_status : Option Nat
  webhook_sent_at : Option Nat
  inserted_at : Nat
  last_seen_at : Nat
deriving DecidableEq

/-- The values bound in the `INSERT ... ON CONFLICT` statement of
`upsertLifelog` (everything except the two defaulted timestamps). -/
structure InRow where
  id : String
  title : Option String
  markdown : Option String
  startTime : Option String
  endTime : Option String
  updatedAt : Option Nat
  isStarred : Nat
  analysis_json : Option Analysis
  webhook_last_updatedAt : Option Nat
  webhook_status : Option Nat
  webhook_sent_at : Option Nat
deriving DecidableEq

/-- The `lifelogs` table, keyed by `id`. -/
def Store : Type := String → Option Row

/-- SQL `COALESCE(a, b)`. -/
def co {α : Type} (a b : Option α) : Option α :=
  match a with
  | some x => some x
  | none => b

/-- `SELECT * FROM lifelogs WHERE id=?`. -/
def findById (s : Store) (i : String) : Option Row := s i

/-- Point update of the function store. -/
def setRow (s : Store) (i : String) (r : Row) : Store :=
  fun j => if j = i then some r else s j

/-- `upsertLifelog(row)`: `INSERT ... ON CONFLICT(id) DO UPDATE SET`
with unconditional overwrite of the content and version columns,
`COALESCE(excluded.x, lifelogs.x)` on the four bookkeeping columns,
`last_seen_at=datetime('now')` in both branches and the
`inserted_at` default only on insert. -/
def upsertLifelog (now : Nat) (r : InRow) (s : Store) : Store :=
  match s r.id with
  | none =>
    setRow s r.id
      { id := r.id, title := r.title, markdown := r.markdown,
        startTime := r.startTime, endTime := r.endTime,
        updatedAt := r.updatedAt, isStarred := r.isStarred,
        analysis_json := r.analysis_json,
        webhook_last_updatedAt := r.webhook_last_updatedAt,
        webhook_status := r.webhook_status,
        webhook_sent_at := r.webhook_sent_at,
        inserted_at := now, last_seen_at := now }
  | some old =>
    setRow s r.id
      { id := r.id, title := r.title, markdown := r.markdown,
        startTime := r.startTime, endTime := r.endTime,
        updatedAt := r.updatedAt, isStarred := r.isStarred,
        analysis_json := co r.analysis_json old.analysis_json,
        webhook_last_updatedAt := co r.webhook_last_updatedAt old.webhook_last_updatedAt,
        webhook_status := co r.webhook_status old.webhook_status,
        webhook_sent_at := co r.webhook_sent_at old.webhook_sent_at,
        inserted_at := old.inserted_at, last_seen_at := now }

/-- `UPDATE lifelogs SET last_seen_at=datetime('now') WHERE id=?`
(the touch-only branch of both scan loops). -/
def touchLastSeen (now : Nat) (i : String) (s : Store) : Store :=
  match s i with
  | none => s
  | some r => setRow s i { r with last_seen_at := now }

/-- `markWebhook(updatedAt, status, id)`: records the notification
outcome on the row. -/
def markWebhook (now : Nat) (upd : Option Nat) (status : Nat) (i : String) (s : Store) : Store :=
  match s i with
  | none => s
  | some r =>
    setRow s i
      { r with webhook_last_updatedAt := upd, webhook_status := some status,
               webhook_sent_at := some now }

/-- `setAnalysis(analysisJson, id)`. -/
def setAnalysis (a : Option Analysis) (i : String) (s : Store) : Store :=
  match s i with
  | none => s
  | some r => setRow s i { r with analysis_json := a }

/-- `l.isStarred ? 1 : 0`. -/
def starFlag (l : Lifelog) : Nat := if l.isStarred then 1 else 0

/-- `lifelogToRow(l)`: the insert/update image of a fetched record —
bookkeeping columns are all null. -/
def lifelogToRow (l : Lifelog) : InRow :=
  { id := l.id, title := l.title, markdown := l.markdown,
    startTime := l.startTime, endTime := l.endTime,
    updatedAt := l.updatedAt, isStarred := starFlag l,
    analysis_json := none, webhook_last_updatedAt := none,
    webhook_status := none, webhook_sent_at := none }

/-- One response of the OpenAI chat endpoint, as seen by `callOpenAI`
after the HTTP layer: a non-ok status (which `callOpenAI` turns into a
thrown error), a content string that `JSON.parse` accepts (the parsed
object), or a content string it rejects. -/
inductive SvcResult where
  | httpError : Nat → SvcResult
  | parsed : Analysis → SvcResult
  | unparsed : String → SvcResult
deriving DecidableEq

/-- The fallback object returned when `OPENAI_API_KEY` is missing. -/
def fallbackUnscored : Analysis :=
  { sentiment := "unscored", confidence := 0, summary := "" }

/-- `callOpenAI(markdown)`: missing key short-circuits to the fixed
fallback; otherwise the service is consulted on the first 6000
characters, a non-ok response throws (`Except.error`), unparseable
content falls back to a neutral object. -/
def callOpenAI (hasKey : Bool) (svc : String → SvcResult) (markdown : String) :
    Except Nat Analysis :=
  if hasKey = false then
    .ok fallbackUnscored
  else
    match svc (markdown.take 6000) with
    | .httpError s => .error s
    | .parsed a => .ok a
    | .unparsed t =>
      .ok { sentiment := "neutral", confidence := 1/2, summary := t.take 120 }

/-- Errors thrown by `fetchWithRetry`: `HTTP <status> <body>` or
`fetchWithRetry exhausted`. -/
inductive FetchErr where
  | httpError : Nat → FetchErr
  | exhausted : FetchErr
deriving DecidableEq

/-- JavaScript `Response.ok`: status in 200..299. -/
def isOkStatus (s : Nat) : Bool := 200 ≤ s && s < 300

/-- The retry loop of `fetchWithRetry`, attempt index `i`, responses
given by the oracle `resp`; also returns the list of back-off waits
(in ms) performed, in order. -/
def fetchRetryGo (resp : Nat → Nat) (maxA i : Nat) (waits : List Nat) :
    Except FetchErr Nat × List Nat :=
  if h : i < maxA then
    if resp i = 429 then
      fetchRetryGo resp maxA (i + 1) (waits ++ [1000 * (i + 1) * 2])
    else if isOkStatus (resp i) then
      (.ok (resp i), waits)
    else if 500 ≤ resp i ∧ i < maxA - 1 then
      fetchRetryGo resp maxA (i + 1) (waits ++ [500 * (i + 1)])
    else
      (.error (.httpError (resp i)), waits)
  else
    (.error .exhausted, waits)
termination_by maxA - i
decreasing_by
  all_goals omega

/-- `fetchWithRetry(url, opts, max)` with the response of attempt `i`
given by `resp i`. -/
def fetchWithRetry (resp : Nat → Nat) (maxA : Nat) : Except FetchErr Nat × List Nat :=
  fetchRetryGo resp maxA 0 []

/-- One response of a webhook sink: an HTTP status (whatever it is —
`postWebhook` returns `r.status` unconditionally), or a network-level
failure, which makes the underlying `fetch` throw. -/
inductive SinkResult where
  | status : Nat → SinkResult
  | netFail : SinkResult
deriving DecidableEq

/-- The external collaborators, as oracle streams indexed by the number
of calls made so far: the primary webhook sink (`WEBHOOK_URL`), the
secondary sink (`WEBHOOK_URL_2`), the OpenAI scoring endpoint used by
`callOpenAI`, and the OpenAI summarizer used by
`createChatGPTSummary` (which never throws: it returns the summary or
null). -/
structure World where
  sink : Nat → SinkResult
  sink2 : Nat → SinkResult
  svc : Nat → String → SvcResult
  summarize : Nat → Option String

/-- The environment configuration read at process start. -/
structure Config where
  hasOpenAIKey : Bool
  hasWebhook2 : Bool
  backfillNotify : Bool
  maxPages : Nat
deriving DecidableEq

/-- One invocation of `postWebhook` (primary sink) for a record:
the id and `updatedAt` of the payload, and the observed outcome
(`some status`, or `none` when the fetch failed at network level and
threw). -/
structure DispatchEvent where
  id : String
  version : Option Nat
  outcome : Option Nat
deriving DecidableEq

/-- The full mutable state of the process: the `lifelogs` table, the
clock that stands for `datetime('now')`, per-oracle call counters, the
log of primary-sink invocations, an `aborted` flag modelling an
uncaught thrown exception, and the `backfill_done` flag of the `kv`
table. -/
structure Sys where
  store : Store
  clock : Nat
  sinkCalls : Nat
  sink2Calls : Nat
  svcCalls : Nat
  sumCalls : Nat
  events : List DispatchEvent
  aborted : Bool
  flag : Bool

/-- The initial state: empty table, `backfill_done` unset. -/
def sys0 : Sys :=
  { store := fun _ => none, clock := 0, sinkCalls := 0, sink2Calls := 0,
    svcCalls := 0, sumCalls := 0, events := [], aborted := false, flag := false }

/-- The insert / update / touch decision both loops make for a fetched
record `l` against the stored row. -/
def reconcile (now : Nat) (l : Lifelog) (s : Store) : Store :=
  match s l.id with
  | none => upsertLifelog now (lifelogToRow l) s
  | some existing =>
    if existing.updatedAt ≠ l.updatedAt ∨ existing.isStarred ≠ starFlag l then
      upsertLifelog now (lifelogToRow l) s
    else
      touchLastSeen now l.id s

/-- The `// sentiment if missing` block of both loops: re-read the row,
and if `analysis_json` is null call OpenAI and store the result; a
thrown scoring error is logged and swallowed. -/
def annotateStep (cfg : Config) (w : World) (l : Lifelog) (st : Sys) : Sys :=
  match st.store l.id with
  | none => st
  | some current =>
    if current.analysis_json = none then
      match callOpenAI cfg.hasOpenAIKey (w.svc st.svcCalls) (current.markdown.getD "") with
      | .ok a =>
        { st with store := setAnalysis (some a) l.id st.store,
                  svcCalls := st.svcCalls + 1 }
      | .error _ => { st with svcCalls := st.svcCalls + 1 }
    else st

/-- `createChatGPTSummary(summary, preview)`: returns null immediately
when the OpenAI key or the second webhook URL is missing, otherwise the
summarizer's answer (any failure is caught inside and yields null). -/
def createChatGPTSummary (cfg : Config) (res : Option String) : Option String :=
  if cfg.hasOpenAIKey ∧ cfg.hasWebhook2 then res else none

/-- Whether `analysis?.summary` is truthy for the stored row. -/
def summaryTruthy (a : Option Analysis) : Bool :=
  match a with
  | some an => an.summary ≠ ""
  | none => false

/-- The dispatch block shared by `fullBackfill` (guarded by
`BACKFILL_SEND_WEBHOOK`) and `incrementalScan`: re-read the row; if
`webhook_last_updatedAt !== updatedAt`, POST to the primary sink
(a network failure throws, aborting the run before `markWebhook`),
run the secondary-summary path with its failures swallowed, then
`markWebhook(c2.updatedAt, status, c2.id)`. -/
def dispatchStep (cfg : Config) (w : World) (l : Lifelog) (st : Sys) : Sys :=
  match st.store l.id with
  | none => st
  | some c2 =>
    if c2.webhook_last_updatedAt ≠ c2.updatedAt then
      match w.sink st.sinkCalls with
      | .netFail =>
        { st with sinkCalls := st.sinkCalls + 1,
                  events := st.events ++ [⟨l.id, c2.updatedAt, none⟩],
                  aborted := true }
      | .status code =>
        let st1 : Sys :=
          { st with sinkCalls := st.sinkCalls + 1,
                    events := st.events ++ [⟨l.id, c2.updatedAt, some code⟩] }
        let st2 : Sys :=
          if cfg.hasWebhook2 ∧ summaryTruthy c2.analysis_json then
            match createChatGPTSummary cfg (w.summarize st1.sumCalls) with
            | some _ =>
              { st1 with sumCalls := st1.sumCalls + 1,
                         sink2Calls := st1.sink2Calls + 1 }
            | none => { st1 with sumCalls := st1.sumCalls + 1 }
          else st1
        { st2 with store := markWebhook st2.clock c2.updatedAt code l.id st2.store }
    else st

/-- `const now = datetime('now')` plus the reconcile write of one
record: bump the clock and update the store. -/
def bumpState (l : Lifelog) (st : Sys) : Sys :=
  { st with clock := st.clock + 1, store := reconcile (st.clock + 1) l st.store }

/-- Processing of one fetched record inside either loop: reconcile,
annotate if missing, then (when `notify` — always in the incremental
scan, only under `BACKFILL_SEND_WEBHOOK` in the backfill) dispatch.
A previously thrown exception (`aborted`) skips everything. -/
def processRecord (cfg : Config) (w : World) (notify : Bool) (l : Lifelog) (st : Sys) : Sys :=
  if st.aborted then st
  else if notify then
    dispatchStep cfg w l (annotateStep cfg w l (bumpState l st))
  else
    annotateStep cfg w l (bumpState l st)

/-- `for (const l of lifelogs) { ... }`. -/
def processPage (cfg : Config) (w : World) (notify : Bool) (ls : List Lifelog) (st : Sys) : Sys :=
  ls.foldl (fun s l => processRecord cfg w notify l s) st

/-- A paginated source: page index to (records of the page, whether a
`nextCursor` was returned).  Cursors are opaque and only threaded from
one call to the next, so a page index models them faithfully. -/
def Src : Type := Nat → List Lifelog × Bool

/-- Number of records of page `k` of `src` that are "already up to date
and webhooked" in store `s` — the body of the early-stop heuristic:
same `updatedAt` as fetched, `webhook_last_updatedAt` equal to it, and
a truthy `analysis_json`. -/
def upToDateRec (s : Store) (l : Lifelog) : Bool :=
  match s l.id with
  | none => false
  | some r =>
    (r.updatedAt == l.updatedAt) && (r.webhook_last_updatedAt == r.updatedAt)
      && r.analysis_json.isSome

/-- Count of up-to-date records on a page. -/
def upToDateCount (s : Store) (ls : List Lifelog) : Nat :=
  (ls.filter (upToDateRec s)).length

/-- The `while (pages < maxPages)` loop of `incrementalScan`;
`pagesDone` pages already fetched, `fuel = maxPages - pagesDone`.
Returns the final state and the value of `pages`.  An empty page breaks
before processing; the early-stop heuristic runs after a processed page
once `pages >= 3`; a missing cursor breaks last. -/
def incScanGo (cfg : Config) (w : World) (src : Src) (st : Sys)
    (pagesDone fuel : Nat) : Sys × Nat :=
  match fuel with
  | 0 => (st, pagesDone)
  | fuel' + 1 =>
    if (src pagesDone).1.isEmpty then (st, pagesDone + 1)
    else if (processPage cfg w true (src pagesDone).1 st).aborted then
      (processPage cfg w true (src pagesDone).1 st, pagesDone + 1)
    else if pagesDone + 1 ≥ 3 ∧
        5 * upToDateCount (processPage cfg w true (src pagesDone).1 st).store
            (src pagesDone).1
          ≥ 4 * (src pagesDone).1.length then
      (processPage cfg w true (src pagesDone).1 st, pagesDone + 1)
    else if (src pagesDone).2 = false then
      (processPage cfg w true (src pagesDone).1 st, pagesDone + 1)
    else
      incScanGo cfg w src (processPage cfg w true (src pagesDone).1 st)
        (pagesDone + 1) fuel'

/-- `incrementalScan()`. -/
def incrementalScan (cfg : Config) (w : World) (src : Src) (st : Sys) : Sys × Nat :=
  incScanGo cfg w src st 0 cfg.maxPages

/-- The `do { ... } while (cursor && pages < 1000)` loop of
`fullBackfill`; the body always runs at least once (given fuel). -/
def backfillGo (cfg : Config) (w : World) (src : Src) (st : Sys)
    (pagesDone fuel : Nat) : Sys × Nat :=
  match fuel with
  | 0 => (st, pagesDone)
  | fuel' + 1 =>
    if (processPage cfg w cfg.backfillNotify (src pagesDone).1 st).aborted then
      (processPage cfg w cfg.backfillNotify (src pagesDone).1 st, pagesDone + 1)
    else if (src pagesDone).2 ∧ pagesDone + 1 < 1000 then
      backfillGo cfg w src (processPage cfg w cfg.backfillNotify (src pagesDone).1 st)
        (pagesDone + 1) fuel'
    else (processPage cfg w cfg.backfillNotify (src pagesDone).1 st, pagesDone + 1)

/-- `fullBackfill()`: run the loop (its ceiling is 1000 pages, so fuel
1000 never runs out before the loop condition stops it), then —
unless the run was aborted by a thrown exception — execute
`await kvSet('backfill_done', '1')`. -/
def fullBackfill (cfg : Config) (w : World) (src : Src) (st : Sys) : Sys × Nat :=
  if (backfillGo cfg w src st 0 1000).1.aborted then backfillGo cfg w src st 0 1000
  else ({ (backfillGo cfg w src st 0 1000).1 with flag := true },
    (backfillGo cfg w src st 0 1000).2)

/-- One run, as scheduled by `main()`: a full backfill or an
incremental scan over a (possibly changed) source.  A new run starts
with the exception state of the previous one cleared (the recurring
scheduler catches scan errors; a crashed backfill is restarted as a new
process over the same durable store). -/
inductive RunSpec where
  | backfill : Src → RunSpec
  | scan : Src → RunSpec

/-- The source of a run. -/
def runSrc : RunSpec → Src
  | .backfill s => s
  | .scan s => s

/-- Clear the exception flag at the start of a run. -/
def resetAbort (st : Sys) : Sys := { st with aborted := false }

/-- Execute one run against the durable state. -/
def execRun (cfg : Config) (w : World) (st : Sys) : RunSpec → Sys
  | .backfill src => (fullBackfill cfg w src (resetAbort st)).1
  | .scan src => (incrementalScan cfg w src (resetAbort st)).1

/-- Execute a sequence of runs. -/
def execRuns (cfg : Config) (w : World) (st : Sys) (rs : List RunSpec) : Sys :=
  rs.foldl (execRun cfg w) st

/-- Number of primary-sink invocations logged for a given id and
version. -/
def evCount (evs : List DispatchEvent) (i : String) (v : Nat) : Nat :=
  (evs.filter (fun e => e.id == i && e.version == some v)).length

/-! ### Basic store lemmas -/

theorem setRow_self (s : Store) (i : String) (r : Row) : setRow s i r i = some r := by
  simp [setRow]

theorem setRow_other (s : Store) (i j : String) (r : Row) (h : j ≠ i) :
    setRow s i r j = s j := by
  simp [setRow, h]

theorem co_none {α : Type} (b : Option α) : co none b = b := rfl

theorem co_self {α : Type} (a : Option α) : co a a = a := by
  cases a <;> rfl

theorem co_co {α : Type} (a b : Option α) : co a (co a b) = co a b := by
  cases a <;> rfl

/-- The row that `upsertLifelog` leaves at key `r.id`, as a function of
the previous row there. -/
def mergeRow (now : Nat) (r : InRow) (o : Option Row) : Row :=
  match o with
  | none =>
    { id := r.id, title := r.title, markdown := r.markdown,
      startTime := r.startTime, endTime := r.endTime,
      updatedAt := r.updatedAt, isStarred := r.isStarred,
      analysis_json := r.analysis_json,
      webhook_last_updatedAt := r.webhook_last_updatedAt,
      webhook_status := r.webhook_status,
      webhook_sent_at := r.webhook_sent_at,
      inserted_at := now, last_seen_at := now }
  | some old =>
    { id := r.id, title := r.title, markdown := r.markdown,
      startTime := r.startTime, endTime := r.endTime,
      updatedAt := r.updatedAt, isStarred := r.isStarred,
      analysis_json := co r.analysis_json old.analysis_json,
      webhook_last_updatedAt := co r.webhook_last_updatedAt old.webhook_last_updatedAt,
      webhook_status := co r.webhook_status old.webhook_status,
      webhook_sent_at := co r.webhook_sent_at old.webhook_sent_at,
      inserted_at := old.inserted_at, last_seen_at := now }

theorem upsertLifelog_self (now : Nat) (r : InRow) (s : Store) :
    upsertLifelog now r s r.id = some (mergeRow now r (s r.id)) := by
  cases h : s r.id <;> simp [upsertLifelog, mergeRow, h, setRow]

theorem upsertLifelog_other (now : Nat) (r : InRow) (s : Store) (j : String)
    (h : j ≠ r.id) : upsertLifelog now r s j = s j := by
  cases h2 : s r.id <;> simp [upsertLifelog, h2, setRow, h]

theorem touchLastSeen_other (now : Nat) (i : String) (s : Store) (j : String)
    (h : j ≠ i) : touchLastSeen now i s j = s j := by
  cases h2 : s i <;> simp [touchLastSeen, h2, setRow, h]

theorem markWebhook_other (now : Nat) (upd : Option Nat) (code : Nat) (i : String)
    (s : Store) (j : String) (h : j ≠ i) : markWebhook now upd code i s j = s j := by
  cases h2 : s i <;> simp [markWebhook, h2, setRow, h]

theorem setAnalysis_other (a : Option Analysis) (i : String) (s : Store) (j : String)
    (h : j ≠ i) : setAnalysis a i s j = s j := by
  cases h2 : s i <;> simp [setAnalysis, h2, setRow, h]

/-- C4 (claim theorem): `upsertLifelog` inserts when the id is absent
(setting both audit timestamps); when present it overwrites the content
and version fields unconditionally, keeps each of `analysis_json`,
`webhook_last_updatedAt`, `webhook_status`, `webhook_sent_at` whenever
the incoming value is null, refreshes `last_seen_at`, and keeps
`inserted_at` from the stored row (so it is set only at the initial
insert). -/
theorem upsert_insert_preserve_spec (r : InRow) (s : Store) (now : Nat) :
    (s r.id = none →
      upsertLifelog now r s r.id = some
        { id := r.id, title := r.title, markdown := r.markdown,
          startTime := r.startTime, endTime := r.endTime,
          updatedAt := r.updatedAt, isStarred := r.isStarred,
          analysis_json := r.analysis_json,
          webhook_last_updatedAt := r.webhook_last_updatedAt,
          webhook_status := r.webhook_status,
          webhook_sent_at := r.webhook_sent_at,
          inserted_at := now, last_seen_at := now }) ∧
    (∀ old, s r.id = some old →
      ∃ r', upsertLifelog now r s r.id = some r' ∧
        r'.title = r.title ∧ r'.markdown = r.markdown ∧
        r'.startTime = r.startTime ∧ r'.endTime = r.endTime ∧
        r'.updatedAt = r.updatedAt ∧ r'.isStarred = r.isStarred ∧
        (r.analysis_json = none → r'.analysis_json = old.analysis_json) ∧
        (r.webhook_last_updatedAt = none →
          r'.webhook_last_updatedAt = old.webhook_last_updatedAt) ∧
        (r.webhook_status = none → r'.webhook_status = old.webhook_status) ∧
        (r.webhook_sent_at = none → r'.webhook_sent_at = old.webhook_sent_at) ∧
        r'.last_seen_at = now ∧ r'.inserted_at = old.inserted_at) := by
  constructor
  · intro h
    have h2 := upsertLifelog_self now r s
    rw [h] at h2
    exact h2
  · intro old h
    have h2 := upsertLifelog_self now r s
    rw [h] at h2
    refine ⟨_, h2, rfl, rfl, rfl, rfl, rfl, rfl, ?_, ?_, ?_, ?_, rfl, rfl⟩
    all_goals intro hn
    all_goals rw [show mergeRow now r (some old) = _ from rfl]
    all_goals simp [mergeRow, hn, co_none]

/-- C8 (claim theorem): the touch operation refreshes only
`last_seen_at`: the annotation, the notification bookkeeping and all
content fields are unchanged, rows with other ids are unchanged, and
`reconcile` takes exactly this touch path when the fetched record has
the same `updatedAt` and starred flag as the stored row. -/
theorem touch_only_last_seen (s : Store) (i : String) (now : Nat) :
    (∀ r, s i = some r →
      ∃ r', touchLastSeen now i s i = some r' ∧
        r'.analysis_json = r.analysis_json ∧
        r'.webhook_last_updatedAt = r.webhook_last_updatedAt ∧
        r'.webhook_status = r.webhook_status ∧
        r'.webhook_sent_at = r.webhook_sent_at ∧
        r'.title = r.title ∧ r'.markdown = r.markdown ∧
        r'.startTime = r.startTime ∧ r'.endTime = r.endTime ∧
        r'.updatedAt = r.updatedAt ∧ r'.isStarred = r.isStarred ∧
        r'.inserted_at = r.inserted_at ∧ r'.last_seen_at = now) ∧
    (∀ j, j ≠ i → touchLastSeen now i s j = s j) ∧
    (∀ (l : Lifelog) (old : Row), l.id = i → s i = some old →
      old.updatedAt = l.updatedAt → old.isStarred = starFlag l →
      reconcile now l s = touchLastSeen now i s) := by
  refine ⟨?_, ?_, ?_⟩
  · intro r h
    refine ⟨{ r with last_seen_at := now }, ?_, rfl, rfl, rfl, rfl, rfl, rfl,
      rfl, rfl, rfl, rfl, rfl, rfl⟩
    simp [touchLastSeen, h, setRow]
  · intro j hj
    exact touchLastSeen_other now i s j hj
  · intro l old hli h hupd hstar
    subst hli
    simp [reconcile, h, hupd, hstar]

/-- Erase the one field that idempotence of the upsert excludes. -/
def eraseLSA (r : Row) : Row := { r with last_seen_at := 0 }

/-- C9 (claim theorem): applying `upsertLifelog` twice with the same
incoming record leaves every key of the store in the same state as
applying it once, except possibly `last_seen_at`. -/
theorem upsert_idempotent (r : InRow) (s : Store) (n1 n2 : Nat) (j : String) :
    ((upsertLifelog n2 r (upsertLifelog n1 r s)) j).map eraseLSA
      = ((upsertLifelog n1 r s) j).map eraseLSA := by
  by_cases hj : j = r.id
  · subst hj
    rw [upsertLifelog_self n2 r (upsertLifelog n1 r s), upsertLifelog_self n1 r s]
    cases h : s r.id <;> simp [mergeRow, eraseLSA, co_self, co_co]
  · rw [upsertLifelog_other n2 r _ j hj]

/-- A concrete stored row used by witnesses. -/
def rowW : Row :=
  { id := "a", title := some "t", markdown := some "m", startTime := none,
    endTime := none, updatedAt := some 1, isStarred := 1,
    analysis_json := some fallbackUnscored, webhook_last_updatedAt := none,
    webhook_status := none, webhook_sent_at := none,
    inserted_at := 0, last_seen_at := 0 }

/-- A concrete store holding `rowW` under id `"a"`. -/
def storeW : Store := setRow (fun _ => none) "a" rowW

/-- A concrete incoming record for id `"a"` with null bookkeeping. -/
def inW : InRow :=
  { id := "a", title := some "t2", markdown := some "m2", startTime := none,
    endTime := none, updatedAt := some 2, isStarred := 1,
    analysis_json := none, webhook_last_updatedAt := none,
    webhook_status := none, webhook_sent_at := none }

/-- Witness for the C4 theorem at a concrete conflicting upsert. -/
theorem upsert_insert_preserve_spec_witness :
    storeW inW.id = some rowW ∧
    (∃ r', upsertLifelog 7 inW storeW inW.id = some r' ∧
      r'.title = inW.title ∧ r'.markdown = inW.markdown ∧
      r'.startTime = inW.startTime ∧ r'.endTime = inW.endTime ∧
      r'.updatedAt = inW.updatedAt ∧ r'.isStarred = inW.isStarred ∧
      (inW.analysis_json = none → r'.analysis_json = rowW.analysis_json) ∧
      (inW.webhook_last_updatedAt = none →
        r'.webhook_last_updatedAt = rowW.webhook_last_updatedAt) ∧
      (inW.webhook_status = none → r'.webhook_status = rowW.webhook_status) ∧
      (inW.webhook_sent_at = none → r'.webhook_sent_at = rowW.webhook_sent_at) ∧
      r'.last_seen_at = 7 ∧ r'.inserted_at = rowW.inserted_at) :=
  ⟨by decide, (upsert_insert_preserve_spec inW storeW 7).2 rowW (by decide)⟩

/-- Witness for the C8 theorem at a concrete touch. -/
theorem touch_only_last_seen_witness :
    storeW "a" = some rowW ∧
    (∃ r', touchLastSeen 9 "a" storeW "a" = some r' ∧
      r'.analysis_json = rowW.analysis_json ∧
      r'.webhook_last_updatedAt = rowW.webhook_last_updatedAt ∧
      r'.webhook_status = rowW.webhook_status ∧
      r'.webhook_sent_at = rowW.webhook_sent_at ∧
      r'.title = rowW.title ∧ r'.markdown = rowW.markdown ∧
      r'.startTime = rowW.startTime ∧ r'.endTime = rowW.endTime ∧
      r'.updatedAt = rowW.updatedAt ∧ r'.isStarred = rowW.isStarred ∧
      r'.inserted_at = rowW.inserted_at ∧ r'.last_seen_at = 9) :=
  ⟨by decide, (touch_only_last_seen storeW "a" 9).1 rowW (by decide)⟩

/-! ### Characterization of the per-record processing steps -/

/-- `webhook_last_updatedAt` of an optional row (null when absent). -/
def oWlu (o : Option Row) : Option Nat :=
  match o with
  | some old => old.webhook_last_updatedAt
  | none => none

/-- `analysis_json` of an optional row (null when absent). -/
def oAna (o : Option Row) : Option Analysis :=
  match o with
  | some old => old.analysis_json
  | none => none

theorem reconcile_other (now : Nat) (l : Lifelog) (s : Store) (j : String)
    (h : j ≠ l.id) : reconcile now l s j = s j := by
  unfold reconcile
  cases h2 : s l.id with
  | none => exact upsertLifelog_other now (lifelogToRow l) s j h
  | some old =>
    by_cases hc : old.updatedAt ≠ l.updatedAt ∨ old.isStarred ≠ starFlag l
    · simp only [if_pos hc]
      exact upsertLifelog_other now (lifelogToRow l) s j h
    · simp only [if_neg hc]
      exact touchLastSeen_other now l.id s j h

theorem reconcile_self (now : Nat) (l : Lifelog) (s : Store) :
    ∃ r', reconcile now l s l.id = some r' ∧
      r'.updatedAt = l.updatedAt ∧ r'.isStarred = starFlag l ∧
      r'.webhook_last_updatedAt = oWlu (s l.id) ∧
      r'.analysis_json = oAna (s l.id) := by
  unfold reconcile
  cases h2 : s l.id with
  | none =>
    have h3 := upsertLifelog_self now (lifelogToRow l) s
    rw [show (lifelogToRow l).id = l.id from rfl, h2] at h3
    exact ⟨_, h3, by simp [mergeRow, lifelogToRow], by simp [mergeRow, lifelogToRow],
      by simp [mergeRow, oWlu, lifelogToRow], by simp [mergeRow, oAna, lifelogToRow]⟩
  | some old =>
    by_cases hc : old.updatedAt ≠ l.updatedAt ∨ old.isStarred ≠ starFlag l
    · simp only [if_pos hc]
      have h3 := upsertLifelog_self now (lifelogToRow l) s
      rw [show (lifelogToRow l).id = l.id from rfl, h2] at h3
      exact ⟨_, h3, by simp [mergeRow, lifelogToRow], by simp [mergeRow, lifelogToRow],
        by simp [mergeRow, oWlu, lifelogToRow, co_none],
        by simp [mergeRow, oAna, lifelogToRow, co_none]⟩
    · simp only [if_neg hc]
      push_neg at hc
      obtain ⟨hupd, hstar⟩ := hc
      refine ⟨{ old with last_seen_at := now }, ?_, ?_, ?_, ?_, ?_⟩
      · simp [touchLastSeen, h2, setRow]
      · simpa using hupd
      · simpa using hstar
      · simp [oWlu]
      · simp [oAna]

theorem annotateStep_cases (cfg : Config) (w : World) (l : Lifelog) (st : Sys) :
    annotateStep cfg w l st = st ∨
    annotateStep cfg w l st = { st with svcCalls := st.svcCalls + 1 } ∨
    ∃ a, annotateStep cfg w l st =
      { st with store := setAnalysis (some a) l.id st.store,
                svcCalls := st.svcCalls + 1 } := by
  unfold annotateStep
  cases h : st.store l.id with
  | none => exact Or.inl rfl
  | some current =>
    by_cases ha : current.analysis_json = none
    · simp only [if_pos ha]
      cases hc : callOpenAI cfg.hasOpenAIKey (w.svc st.svcCalls) (current.markdown.getD "") with
      | ok a => exact Or.inr (Or.inr ⟨a, rfl⟩)
      | error e => exact Or.inr (Or.inl rfl)
    · simp only [if_neg ha]
      left
      trivial

theorem annotateStep_frame (cfg : Config) (w : World) (l : Lifelog) (st : Sys) :
    (annotateStep cfg w l st).events = st.events ∧
    (annotateStep cfg w l st).aborted = st.aborted ∧
    (annotateStep cfg w l st).clock = st.clock ∧
    (annotateStep cfg w l st).sinkCalls = st.sinkCalls ∧
    (annotateStep cfg w l st).flag = st.flag ∧
    (∀ j, j ≠ l.id → (annotateStep cfg w l st).store j = st.store j) := by
  rcases annotateStep_cases cfg w l st with h | h | ⟨a, h⟩ <;>
    rw [h] <;>
    exact ⟨rfl, rfl, rfl, rfl, rfl, fun j hj => by simp [setAnalysis_other _ _ _ _ hj]⟩

theorem annotateStep_self (cfg : Config) (w : World) (l : Lifelog) (st : Sys)
    (r : Row) (h : st.store l.id = some r) :
    ∃ r', (annotateStep cfg w l st).store l.id = some r' ∧
      r'.updatedAt = r.updatedAt ∧ r'.isStarred = r.isStarred ∧
      r'.webhook_last_updatedAt = r.webhook_last_updatedAt ∧
      (r'.analysis_json = r.analysis_json ∨ r'.analysis_json.isSome) ∧
      (cfg.hasOpenAIKey = false → r'.analysis_json.isSome) := by
  unfold annotateStep
  simp only [h]
  by_cases ha : r.analysis_json = none
  · simp only [if_pos ha]
    cases hc : callOpenAI cfg.hasOpenAIKey (w.svc st.svcCalls) (r.markdown.getD "") with
    | ok a =>
      refine ⟨{ r with analysis_json := some a }, ?_, rfl, rfl, rfl, ?_, ?_⟩
      · simp [setAnalysis, h, setRow]
      · exact Or.inr rfl
      · intro _
        rfl
    | error e =>
      refine ⟨r, h, rfl, rfl, rfl, Or.inl rfl, ?_⟩
      intro hk
      rw [hk] at hc
      simp [callOpenAI] at hc
  · simp only [if_neg ha]
    refine ⟨r, h, rfl, rfl, rfl, Or.inl rfl, ?_⟩
    intro _
    simpa [Option.isSome_iff_ne_none] using ha

theorem dispatchStep_absent (cfg : Config) (w : World) (l : Lifelog) (st : Sys)
    (h : st.store l.id = none) : dispatchStep cfg w l st = st := by
  unfold dispatchStep
  simp only [h]

theorem dispatchStep_noop (cfg : Config) (w : World) (l : Lifelog) (st : Sys)
    (c2 : Row) (h : st.store l.id = some c2)
    (heq : c2.webhook_last_updatedAt = c2.updatedAt) :
    dispatchStep cfg w l st = st := by
  unfold dispatchStep
  simp only [h]
  rw [if_neg (fun hn => hn heq)]

theorem dispatchStep_netfail (cfg : Config) (w : World) (l : Lifelog) (st : Sys)
    (c2 : Row) (h : st.store l.id = some c2)
    (hne : c2.webhook_last_updatedAt ≠ c2.updatedAt)
    (hs : w.sink st.sinkCalls = .netFail) :
    dispatchStep cfg w l st =
      { st with sinkCalls := st.sinkCalls + 1,
                events := st.events ++ [⟨l.id, c2.updatedAt, none⟩],
                aborted := true } := by
  unfold dispatchStep
  simp only [h, hs, if_pos hne]

theorem dispatchStep_send (cfg : Config) (w : World) (l : Lifelog) (st : Sys)
    (c2 : Row) (code : Nat) (h : st.store l.id = some c2)
    (hne : c2.webhook_last_updatedAt ≠ c2.updatedAt)
    (hs : w.sink st.sinkCalls = .status code) :
    (dispatchStep cfg w l st).events = st.events ++ [⟨l.id, c2.updatedAt, some code⟩] ∧
    (dispatchStep cfg w l st).aborted = st.aborted ∧
    (dispatchStep cfg w l st).clock = st.clock ∧
    (dispatchStep cfg w l st).flag = st.flag ∧
    (dispatchStep cfg w l st).store l.id = some
      { c2 with webhook_last_updatedAt := c2.updatedAt,
                webhook_status := some code, webhook_sent_at := some st.clock } ∧
    (∀ j, j ≠ l.id → (dispatchStep cfg w l st).store j = st.store j) := by
  unfold dispatchStep
  simp only [h, hs, if_pos hne]
  by_cases hb : cfg.hasWebhook2 ∧ summaryTruthy c2.analysis_json
  · rw [if_pos hb]
    cases hcs : createChatGPTSummary cfg (w.summarize st.sumCalls) with
    | some x =>
      refine ⟨rfl, rfl, rfl, rfl, ?_, ?_⟩
      · simp [markWebhook, h, setRow]
      · intro j hj
        exact markWebhook_other _ _ _ _ _ _ hj
    | none =>
      refine ⟨rfl, rfl, rfl, rfl, ?_, ?_⟩
      · simp [markWebhook, h, setRow]
      · intro j hj
        exact markWebhook_other _ _ _ _ _ _ hj
  · rw [if_neg hb]
    refine ⟨rfl, rfl, rfl, rfl, ?_, ?_⟩
    · simp [markWebhook, h, setRow]
    · intro j hj
      exact markWebhook_other _ _ _ _ _ _ hj

theorem processRecord_aborted (cfg : Config) (w : World) (b : Bool) (l : Lifelog)
    (st : Sys) (hab : st.aborted = true) : processRecord cfg w b l st = st := by
  unfold processRecord
  rw [if_pos hab]

theorem processRecord_eq (cfg : Config) (w : World) (b : Bool) (l : Lifelog) (st : Sys)
    (hab : st.aborted = false) :
    processRecord cfg w b l st =
      if b then dispatchStep cfg w l (annotateStep cfg w l (bumpState l st))
      else annotateStep cfg w l (bumpState l st) := by
  unfold processRecord
  rw [if_neg (by simp [hab])]

/-- C10 (claim theorem): with no scoring-service API key configured,
`callOpenAI` returns the fixed fallback object
`{sentiment: "unscored", confidence: 0, summary: ""}` for every
markdown input and independently of the external service (the service
oracle is universally quantified and never consulted), and processing
any record in a scan leaves it with a non-null `analysis_json`. -/
theorem no_key_fallback_scoring :
    (∀ (svc : String → SvcResult) (md : String),
      callOpenAI false svc md = .ok fallbackUnscored) ∧
    (∀ (cfg : Config) (w : World) (b : Bool) (l : Lifelog) (st : Sys),
      cfg.hasOpenAIKey = false → st.aborted = false →
      ∃ r, (processRecord cfg w b l st).store l.id = some r ∧
        r.analysis_json.isSome) := by
  constructor
  · intro svc md
    rfl
  · intro cfg w b l st hkey hab
    rw [processRecord_eq cfg w b l st hab]
    obtain ⟨r1, hr1, hu1, hs1, hw1, ha1⟩ := reconcile_self (st.clock + 1) l st.store
    have h0 : (bumpState l st).store l.id = some r1 := hr1
    obtain ⟨r2, hr2, hu2, hs2, hw2, han2, hkey2⟩ := annotateStep_self cfg w l _ r1 h0
    have hsome2 : r2.analysis_json.isSome := hkey2 hkey
    cases b with
    | false =>
      rw [if_neg (by simp)]
      exact ⟨r2, hr2, hsome2⟩
    | true =>
      rw [if_pos rfl]
      by_cases hel : r2.webhook_last_updatedAt = r2.updatedAt
      · rw [dispatchStep_noop cfg w l _ r2 hr2 hel]
        exact ⟨r2, hr2, hsome2⟩
      · cases hsk : w.sink (annotateStep cfg w l (bumpState l st)).sinkCalls with
        | netFail =>
          rw [dispatchStep_netfail cfg w l _ r2 hr2 hel hsk]
          exact ⟨r2, hr2, hsome2⟩
        | status code =>
          obtain ⟨he, hab2, hcl, hfl, hself, hoth⟩ :=
            dispatchStep_send cfg w l _ r2 code hr2 hel hsk
          exact ⟨_, hself, hsome2⟩

/-- Witness for the C10 theorem: a concrete record processed against
the empty store with no API key. -/
theorem no_key_fallback_scoring_witness :
    callOpenAI false (fun _ => .httpError 500) "hello" = .ok fallbackUnscored ∧
    (({ hasOpenAIKey := false, hasWebhook2 := false, backfillNotify := false,
        maxPages := 25 } : Config).hasOpenAIKey = false ∧ sys0.aborted = false) ∧
    (∃ r, (processRecord
        { hasOpenAIKey := false, hasWebhook2 := false, backfillNotify := false,
          maxPages := 25 }
        { sink := fun _ => .status 200, sink2 := fun _ => .status 200,
          svc := fun _ _ => .httpError 500, summarize := fun _ => none }
        true
        { id := "a", title := none, markdown := none, startTime := none,
          endTime := none, updatedAt := some 1, isStarred := true }
        sys0).store "a" = some r ∧ r.analysis_json.isSome) :=
  ⟨no_key_fallback_scoring.1 (fun _ => .httpError 500) "hello",
   ⟨rfl, rfl⟩,
   no_key_fallback_scoring.2 _ _ true _ sys0 rfl rfl⟩

theorem fetchRetryGo_all429 (resp : Nat → Nat) (maxA : Nat)
    (hr : ∀ i, i < maxA → resp i = 429) :
    ∀ n i waits, maxA - i = n →
      fetchRetryGo resp maxA i waits =
        (.error .exhausted,
          waits ++ (List.range' i (maxA - i)).map (fun j => 1000 * (j + 1) * 2)) := by
  intro n
  induction n with
  | zero =>
    intro i waits hn
    rw [fetchRetryGo, dif_neg (by omega)]
    simp [hn]
  | succ n ih =>
    intro i waits hn
    have hi : i < maxA := by omega
    rw [fetchRetryGo, dif_pos hi, if_pos (hr i hi)]
    rw [ih (i + 1) (waits ++ [1000 * (i + 1) * 2]) (by omega)]
    rw [hn, show maxA - (i + 1) = n from by omega, List.range'_succ]
    simp

/-- C6 (claim theorem): on HTTP 429 the fetcher retries the same
request after a wait of `1000 * (attempt + 1) * 2` ms — linear in the
attempt count with the fixed scale factor 2000 — for at most `maxA`
attempts; when every attempt is rate-limited it fails with the
rate-limit-exhausted error only after performing all `maxA` waits; and
on the input sequence 429, 429, 200 it waits 2000 ms then 4000 ms
(strictly increasing) and returns the successful response with no
error. -/
theorem rate_limit_retry_spec :
    (∀ (resp : Nat → Nat) (maxA : Nat), (∀ i, i < maxA → resp i = 429) →
      fetchWithRetry resp maxA =
        (.error .exhausted,
          (List.range maxA).map (fun j => 1000 * (j + 1) * 2))) ∧
    (fetchWithRetry (fun i => if i = 0 then 429 else if i = 1 then 429 else 200) 3
        = (.ok 200, [2000, 4000]) ∧
      List.Chain' (· < ·) [2000, 4000]) := by
  refine ⟨?_, ?_, ?_⟩
  · intro resp maxA hr
    unfold fetchWithRetry
    rw [fetchRetryGo_all429 resp maxA hr (maxA - 0) 0 [] rfl]
    simp [List.range_eq_range']
  · rw [fetchWithRetry, fetchRetryGo, fetchRetryGo, fetchRetryGo]
    norm_num [isOkStatus]
  · simp [List.chain'_cons]

/-- Witness for the C6 theorem: three straight 429 responses exhaust
the retry budget with the documented waits. -/
theorem rate_limit_retry_spec_witness :
    (∀ i, i < 3 → (fun (_ : Nat) => 429) i = 429) ∧
    fetchWithRetry (fun _ => 429) 3 =
      (.error .exhausted, (List.range 3).map (fun j => 1000 * (j + 1) * 2)) :=
  ⟨fun _ _ => rfl, rate_limit_retry_spec.1 (fun _ => 429) 3 (fun _ _ => rfl)⟩

/-- Configuration used by concrete runs in witnesses and
counterexamples: no OpenAI key, no second webhook, backfill-notify
disabled, default page budget. -/
def cfgW : Config :=
  { hasOpenAIKey := false, hasWebhook2 := false, backfillNotify := false,
    maxPages := 25 }

/-- A world whose sinks always answer 200 and whose scoring service
always fails. -/
def worldOk : World :=
  { sink := fun _ => .status 200, sink2 := fun _ => .status 200,
    svc := fun _ _ => .httpError 500, summarize := fun _ => none }

/-- A source that returns an empty page with a next cursor forever:
the backfill hits its 1000-page ceiling with a cursor remaining. -/
def srcCeil : Src := fun _ => ([], true)

set_option maxRecDepth 100000 in
/-- C1 counterexample: on a source that still has a next cursor when
the 1000-page ceiling is reached, `fullBackfill` nevertheless sets the
`backfill_done` flag — `kvSet('backfill_done','1')` runs
unconditionally after the loop — contradicting the claim that the flag
stays unset in that case. -/
theorem backfill_flag_ceiling_cex :
    (fullBackfill cfgW worldOk srcCeil sys0).2 = 1000 ∧
    (srcCeil 999).2 = true ∧
    (fullBackfill cfgW worldOk srcCeil sys0).1.flag = true := by
  refine ⟨?_, rfl, ?_⟩ <;> rfl

/-- C1 amended theorem: `fullBackfill` sets the `backfill_done` flag
whenever the run completes without a thrown exception — regardless of
whether the cursor was exhausted or the 1000-page ceiling was hit with
a next cursor remaining — so the next process start skips the
backfill either way. -/
theorem backfill_flag_always_set (cfg : Config) (w : World) (src : Src) (st : Sys)
    (h : (fullBackfill cfg w src st).1.aborted = false) :
    (fullBackfill cfg w src st).1.flag = true := by
  by_cases hab : (backfillGo cfg w src st 0 1000).1.aborted
  · exfalso
    simp only [fullBackfill] at h
    rw [if_pos hab] at h
    rw [h] at hab
    exact Bool.false_ne_true hab
  · simp only [fullBackfill]
    rw [if_neg hab]

/-- A one-page source with no next cursor. -/
def srcOne : Src := fun _ => ([], false)

/-- Witness for the C1 amended theorem on a one-page source. -/
theorem backfill_flag_always_set_witness :
    (fullBackfill cfgW worldOk srcOne sys0).1.aborted = false ∧
    (fullBackfill cfgW worldOk srcOne sys0).1.flag = true :=
  ⟨rfl, backfill_flag_always_set cfgW worldOk srcOne sys0 rfl⟩

/-- A concrete starred record with id `"a"` and version 1. -/
def lA : Lifelog :=
  { id := "a", title := none, markdown := none, startTime := none,
    endTime := none, updatedAt := some 1, isStarred := true }

/-- A one-page source containing just `lA`. -/
def srcA : Src := fun k => if k = 0 then ([lA], false) else ([], false)

/-- A world whose primary sink always fails at network level. -/
def worldNF : World :=
  { sink := fun _ => .netFail, sink2 := fun _ => .status 200,
    svc := fun _ _ => .httpError 500, summarize := fun _ => none }

/-- C2 counterexample: when the primary `postWebhook` fetch fails at
network level, the thrown error aborts the scan before `markWebhook`
runs: the attempted record keeps `webhook_status = null` and
`webhook_last_updatedAt = null`, so no outcome — in particular no
distinct network-failure outcome code — is ever recorded, contradicting
the claim that `markNotified` is called regardless of how the primary
attempt ended. -/
theorem dispatch_netfail_cex :
    (incrementalScan cfgW worldNF srcA sys0).1.aborted = true ∧
    (incrementalScan cfgW worldNF srcA sys0).1.events = [⟨"a", some 1, none⟩] ∧
    ((incrementalScan cfgW worldNF srcA sys0).1.store "a").map
      (fun r => (r.webhook_status, r.webhook_last_updatedAt)) = some (none, none) := by
  refine ⟨rfl, rfl, rfl⟩

/-- C2 amended theorem: for an eligible record, whenever the primary
send yields an HTTP response — whatever the status code —
`markWebhook(c2.updatedAt, status, c2.id)` runs afterwards, recording
the status as the outcome, with the run not aborted, and the recorded
store state is independent of the secondary-sink path; but when the
primary send fails at network level the exception aborts the run and
the store is left untouched, with no outcome recorded. -/
theorem dispatch_records_status (cfg : Config) (w : World) (l : Lifelog) (st : Sys)
    (c2 : Row) (h : st.store l.id = some c2)
    (hne : c2.webhook_last_updatedAt ≠ c2.updatedAt) :
    (∀ code, w.sink st.sinkCalls = .status code →
      ∃ r', (dispatchStep cfg w l st).store l.id = some r' ∧
        r'.webhook_last_updatedAt = c2.updatedAt ∧
        r'.webhook_status = some code ∧
        (dispatchStep cfg w l st).aborted = st.aborted) ∧
    (w.sink st.sinkCalls = .netFail →
      (dispatchStep cfg w l st).store = st.store ∧
      (dispatchStep cfg w l st).aborted = true) ∧
    (∀ w2 : World, w2.sink = w.sink →
      (dispatchStep cfg w2 l st).store = (dispatchStep cfg w l st).store) := by
  refine ⟨?_, ?_, ?_⟩
  · intro code hs
    obtain ⟨he, hab, hcl, hfl, hself, hoth⟩ := dispatchStep_send cfg w l st c2 code h hne hs
    exact ⟨_, hself, rfl, rfl, hab⟩
  · intro hs
    rw [dispatchStep_netfail cfg w l st c2 h hne hs]
    exact ⟨rfl, rfl⟩
  · intro w2 hs2
    cases hsk : w.sink st.sinkCalls with
    | netFail =>
      rw [dispatchStep_netfail cfg w l st c2 h hne hsk,
        dispatchStep_netfail cfg w2 l st c2 h hne (by rw [hs2]; exact hsk)]
    | status code =>
      obtain ⟨_, _, _, _, hself, hoth⟩ := dispatchStep_send cfg w l st c2 code h hne hsk
      obtain ⟨_, _, _, _, hself2, hoth2⟩ :=
        dispatchStep_send cfg w2 l st c2 code h hne (by rw [hs2]; exact hsk)
      funext j
      by_cases hj : j = l.id
      · rw [hj, hself, hself2]
      · rw [hoth j hj, hoth2 j hj]

/-- A state whose store already holds the eligible row `rowW`. -/
def sysW : Sys := { sys0 with store := storeW }

/-- Witness for the C2 amended theorem: a 200 response is recorded. -/
theorem dispatch_records_status_witness :
    sysW.store "a" = some rowW ∧
    rowW.webhook_last_updatedAt ≠ rowW.updatedAt ∧
    worldOk.sink sysW.sinkCalls = .status 200 ∧
    (∃ r', (dispatchStep cfgW worldOk lA sysW).store "a" = some r' ∧
      r'.webhook_last_updatedAt = rowW.updatedAt ∧
      r'.webhook_status = some 200 ∧
      (dispatchStep cfgW worldOk lA sysW).aborted = sysW.aborted) :=
  ⟨rfl, by decide, rfl,
   (dispatch_records_status cfgW worldOk lA sysW rowW rfl (by decide)).1 200 rfl⟩

theorem incScanGo_pages_le (cfg : Config) (w : World) (src : Src) :
    ∀ fuel st pd, (incScanGo cfg w src st pd fuel).2 ≤ pd + fuel := by
  intro fuel
  induction fuel with
  | zero =>
    intro st pd
    show pd ≤ pd + 0
    omega
  | succ n ih =>
    intro st pd
    simp only [incScanGo]
    by_cases h1 : (src pd).1.isEmpty
    · rw [if_pos h1]
      show pd + 1 ≤ pd + (n + 1)
      omega
    · rw [if_neg h1]
      by_cases h2 : (processPage cfg w true (src pd).1 st).aborted
      · rw [if_pos h2]
        show pd + 1 ≤ pd + (n + 1)
        omega
      · rw [if_neg h2]
        by_cases h3 : pd + 1 ≥ 3 ∧
            5 * upToDateCount (processPage cfg w true (src pd).1 st).store (src pd).1
              ≥ 4 * (src pd).1.length
        · rw [if_pos h3]
          show pd + 1 ≤ pd + (n + 1)
          omega
        · rw [if_neg h3]
          by_cases h4 : (src pd).2 = false
          · rw [if_pos h4]
            show pd + 1 ≤ pd + (n + 1)
            omega
          · rw [if_neg h4]
            have := ih (processPage cfg w true (src pd).1 st) (pd + 1)
            omega

/-- C7 (claim theorem): an incremental scan fetches at most
`MAX_PAGES_PER_RUN` pages; and after processing any page from the third
onward, if at least 80% of the page's records are fully up to date
(stored `updatedAt` equal to the fetched one, `webhook_last_updatedAt`
equal to it, and a non-null `analysis_json` — evaluated against the
post-processing store, exactly as the code does), the loop stops
without fetching another page. -/
theorem scan_page_bound_early_stop :
    (∀ (cfg : Config) (w : World) (src : Src) (st : Sys),
      (incrementalScan cfg w src st).2 ≤ cfg.maxPages) ∧
    (∀ (cfg : Config) (w : World) (src : Src) (st : Sys) (pd fuel : Nat),
      (src pd).1.isEmpty = false →
      (processPage cfg w true (src pd).1 st).aborted = false →
      pd + 1 ≥ 3 →
      5 * upToDateCount (processPage cfg w true (src pd).1 st).store (src pd).1
        ≥ 4 * (src pd).1.length →
      incScanGo cfg w src st pd (fuel + 1) =
        (processPage cfg w true (src pd).1 st, pd + 1)) := by
  constructor
  · intro cfg w src st
    have := incScanGo_pages_le cfg w src cfg.maxPages st 0
    unfold incrementalScan
    omega
  · intro cfg w src st pd fuel h1 h2 h3 h4
    simp only [incScanGo]
    rw [if_neg (by simp [h1]), if_neg (by simp [h2]), if_pos ⟨h3, h4⟩]

/-- A stored row for `"a"` that is fully up to date at version 1. -/
def rowU : Row :=
  { id := "a", title := none, markdown := none, startTime := none,
    endTime := none, updatedAt := some 1, isStarred := 1,
    analysis_json := some fallbackUnscored, webhook_last_updatedAt := some 1,
    webhook_status := some 200, webhook_sent_at := some 0,
    inserted_at := 0, last_seen_at := 0 }

/-- A state already converged with the one-record source. -/
def sysU : Sys := { sys0 with store := setRow (fun _ => none) "a" rowU }

/-- An endless source repeating the single record `lA`. -/
def srcU : Src := fun _ => ([lA], true)

/-- Witness for the C7 theorem: on page 3 of a converged store the
early-stop heuristic fires. -/
theorem scan_page_bound_early_stop_witness :
    (srcU 2).1.isEmpty = false ∧
    (processPage cfgW worldOk true (srcU 2).1 sysU).aborted = false ∧
    2 + 1 ≥ 3 ∧
    5 * upToDateCount (processPage cfgW worldOk true (srcU 2).1 sysU).store (srcU 2).1
      ≥ 4 * (srcU 2).1.length ∧
    incScanGo cfgW worldOk srcU sysU 2 (5 + 1) =
      (processPage cfgW worldOk true (srcU 2).1 sysU, 2 + 1) :=
  ⟨rfl, rfl, by omega, by decide,
   scan_page_bound_early_stop.2 cfgW worldOk srcU sysU 2 5 rfl rfl (by omega) (by decide)⟩

theorem dispatchStep_store_frame (cfg : Config) (w : World) (l : Lifelog) (st : Sys)
    (j : String) (hj : j ≠ l.id) :
    (dispatchStep cfg w l st).store j = st.store j := by
  cases h : st.store l.id with
  | none => rw [dispatchStep_absent cfg w l st h]
  | some c2 =>
    by_cases heq : c2.webhook_last_updatedAt = c2.updatedAt
    · rw [dispatchStep_noop cfg w l st c2 h heq]
    · cases hsk : w.sink st.sinkCalls with
      | netFail => rw [dispatchStep_netfail cfg w l st c2 h heq hsk]
      | status code => exact (dispatchStep_send cfg w l st c2 code h heq hsk).2.2.2.2.2 j hj

theorem processRecord_store_frame (cfg : Config) (w : World) (b : Bool) (l : Lifelog)
    (st : Sys) (j : String) (hj : j ≠ l.id) :
    (processRecord cfg w b l st).store j = st.store j := by
  by_cases hab : st.aborted
  · rw [processRecord_aborted cfg w b l st hab]
  · rw [processRecord_eq cfg w b l st (by simpa using hab)]
    have hbump : (bumpState l st).store j = st.store j :=
      reconcile_other (st.clock + 1) l st.store j hj
    have hann : (annotateStep cfg w l (bumpState l st)).store j = st.store j := by
      rw [(annotateStep_frame cfg w l (bumpState l st)).2.2.2.2.2 j hj, hbump]
    cases b with
    | false =>
      rw [if_neg (by simp)]
      exact hann
    | true =>
      rw [if_pos rfl]
      rw [dispatchStep_store_frame cfg w l _ j hj, hann]

theorem processPage_frame (cfg : Config) (w : World) (b : Bool) :
    ∀ (ls : List Lifelog) (st : Sys) (j : String), j ∉ ls.map Lifelog.id →
      (processPage cfg w b ls st).store j = st.store j := by
  intro ls
  induction ls with
  | nil => intro st j _; rfl
  | cons l t ih =>
    intro st j hj
    rw [List.map_cons, List.mem_cons] at hj
    push_neg at hj
    show (processPage cfg w b t (processRecord cfg w b l st)).store j = st.store j
    rw [ih (processRecord cfg w b l st) j hj.2,
      processRecord_store_frame cfg w b l st j hj.1]

theorem processRecord_false_events (cfg : Config) (w : World) (l : Lifelog) (st : Sys) :
    (processRecord cfg w false l st).events = st.events ∧
    (processRecord cfg w false l st).aborted = st.aborted := by
  by_cases hab : st.aborted
  · rw [processRecord_aborted cfg w false l st hab]
    exact ⟨rfl, rfl⟩
  · rw [processRecord_eq cfg w false l st (by simpa using hab)]
    rw [if_neg (by simp)]
    exact ⟨(annotateStep_frame cfg w l (bumpState l st)).1,
      (annotateStep_frame cfg w l (bumpState l st)).2.1⟩

theorem processPage_false_events (cfg : Config) (w : World) :
    ∀ (ls : List Lifelog) (st : Sys),
      (processPage cfg w false ls st).events = st.events ∧
      (processPage cfg w false ls st).aborted = st.aborted := by
  intro ls
  induction ls with
  | nil => intro st; exact ⟨rfl, rfl⟩
  | cons l t ih =>
    intro st
    show (processPage cfg w false t (processRecord cfg w false l st)).events = st.events ∧
      (processPage cfg w false t (processRecord cfg w false l st)).aborted = st.aborted
    rw [(ih (processRecord cfg w false l st)).1, (ih (processRecord cfg w false l st)).2,
      (processRecord_false_events cfg w l st).1, (processRecord_false_events cfg w l st).2]
    exact ⟨rfl, rfl⟩

theorem processRecord_false_self (cfg : Config) (w : World) (l : Lifelog) (st : Sys)
    (hab : st.aborted = false)
    (hinv : ∀ i r, st.store i = some r → r.webhook_last_updatedAt = none) :
    ∃ r, (processRecord cfg w false l st).store l.id = some r ∧
      r.updatedAt = l.updatedAt ∧ r.isStarred = starFlag l ∧
      r.webhook_last_updatedAt = none := by
  rw [processRecord_eq cfg w false l st hab, if_neg (by simp)]
  obtain ⟨r1, hr1, hu1, hs1, hw1, ha1⟩ := reconcile_self (st.clock + 1) l st.store
  obtain ⟨r2, hr2, hu2, hs2, hw2, _, _⟩ :=
    annotateStep_self cfg w l (bumpState l st) r1 hr1
  refine ⟨r2, hr2, by rw [hu2, hu1], by rw [hs2, hs1], ?_⟩
  rw [hw2, hw1]
  cases hsl : st.store l.id with
  | none => simp [oWlu]
  | some old =>
    simp only [oWlu]
    exact hinv l.id old hsl

theorem processRecord_false_wlu (cfg : Config) (w : World) (l : Lifelog) (st : Sys)
    (hinv : ∀ i r, st.store i = some r → r.webhook_last_updatedAt = none) :
    ∀ i r, (processRecord cfg w false l st).store i = some r →
      r.webhook_last_updatedAt = none := by
  intro i r hr
  by_cases hab : st.aborted
  · rw [processRecord_aborted cfg w false l st hab] at hr
    exact hinv i r hr
  · by_cases hi : i = l.id
    · subst hi
      obtain ⟨r2, hr2, _, _, hw2⟩ :=
        processRecord_false_self cfg w l st (by simpa using hab) hinv
      rw [hr2] at hr
      injection hr with hrr
      rw [← hrr]
      exact hw2
    · rw [processRecord_store_frame cfg w false l st i hi] at hr
      exact hinv i r hr

theorem processPage_false_establishes (cfg : Config) (w : World) :
    ∀ (ls : List Lifelog) (st : Sys),
      st.aborted = false →
      (ls.map Lifelog.id).Nodup →
      (∀ i r, st.store i = some r → r.webhook_last_updatedAt = none) →
      (∀ i r, (processPage cfg w false ls st).store i = some r →
        r.webhook_last_updatedAt = none) ∧
      (∀ l2 ∈ ls, ∃ r, (processPage cfg w false ls st).store l2.id = some r ∧
        r.updatedAt = l2.updatedAt ∧ r.isStarred = starFlag l2 ∧
        r.webhook_last_updatedAt = none) := by
  intro ls
  induction ls with
  | nil =>
    intro st hab hnd hinv
    exact ⟨hinv, fun l2 h => absurd h (List.not_mem_nil l2)⟩
  | cons l t ih =>
    intro st hab hnd hinv
    rw [List.map_cons, List.nodup_cons] at hnd
    have hinv1 := processRecord_false_wlu cfg w l st hinv
    have hab1 : (processRecord cfg w false l st).aborted = false := by
      rw [(processRecord_false_events cfg w l st).2]
      exact hab
    obtain ⟨hinvT, hT⟩ := ih (processRecord cfg w false l st) hab1 hnd.2 hinv1
    constructor
    · exact hinvT
    · intro l2 hl2
      rcases List.mem_cons.mp hl2 with rfl | hl2t
      · obtain ⟨r, hr, hu, hs, hwlu⟩ := processRecord_false_self cfg w l2 st hab hinv
        refine ⟨r, ?_, hu, hs, hwlu⟩
        show (processPage cfg w false t (processRecord cfg w false l2 st)).store l2.id
          = some r
        rw [processPage_frame cfg w false t _ l2.id hnd.1]
        exact hr
      · exact hT l2 hl2t

theorem processPage_true_dispatch (cfg : Config) (w : World)
    (hw : ∀ n, w.sink n ≠ SinkResult.netFail) :
    ∀ (ls : List Lifelog) (st : Sys),
      st.aborted = false →
      (ls.map Lifelog.id).Nodup →
      (∀ l2 ∈ ls, (l2.updatedAt).isSome) →
      (∀ l2 ∈ ls, ∃ r, st.store l2.id = some r ∧ r.updatedAt = l2.updatedAt ∧
        r.isStarred = starFlag l2 ∧ r.webhook_last_updatedAt = none) →
      (processPage cfg w true ls st).aborted = false ∧
      (processPage cfg w true ls st).events.map (fun e => (e.id, e.version))
        = st.events.map (fun e => (e.id, e.version))
          ++ ls.map (fun l2 => (l2.id, l2.updatedAt)) := by
  intro ls
  induction ls with
  | nil =>
    intro st hab _ _ _
    refine ⟨hab, ?_⟩
    show List.map (fun e => (e.id, e.version)) st.events
      = List.map (fun e => (e.id, e.version)) st.events ++ List.map _ []
    simp
  | cons l t ih =>
    intro st hab hnd hver hP
    rw [List.map_cons, List.nodup_cons] at hnd
    obtain ⟨r, hr, hu, hs, hwlu⟩ := hP l (List.mem_cons_self l t)
    have htouch : reconcile (st.clock + 1) l st.store
        = touchLastSeen (st.clock + 1) l.id st.store :=
      (touch_only_last_seen st.store l.id (st.clock + 1)).2.2 l r rfl hr hu hs
    have hb : (bumpState l st).store l.id
        = some { r with last_seen_at := st.clock + 1 } := by
      show reconcile (st.clock + 1) l st.store l.id = _
      rw [htouch]
      simp [touchLastSeen, hr, setRow]
    obtain ⟨r2, hr2, hu2, hs2, hw2, _, _⟩ :=
      annotateStep_self cfg w l (bumpState l st) _ hb
    have hu2' : r2.updatedAt = l.updatedAt := by
      rw [hu2]
      exact hu
    have hw2' : r2.webhook_last_updatedAt = none := by
      rw [hw2]
      exact hwlu
    obtain ⟨v, hv⟩ := Option.isSome_iff_exists.mp (hver l (List.mem_cons_self l t))
    have hne : r2.webhook_last_updatedAt ≠ r2.updatedAt := by
      rw [hw2', hu2', hv]
      simp
    cases hsk : w.sink (annotateStep cfg w l (bumpState l st)).sinkCalls with
    | netFail => exact absurd hsk (hw _)
    | status code =>
      obtain ⟨hev, habd, _, _, _, _⟩ := dispatchStep_send cfg w l _ r2 code hr2 hne hsk
      have hpr : processRecord cfg w true l st
          = dispatchStep cfg w l (annotateStep cfg w l (bumpState l st)) := by
        rw [processRecord_eq cfg w true l st hab, if_pos rfl]
      have hab1 : (processRecord cfg w true l st).aborted = false := by
        rw [hpr, habd, (annotateStep_frame cfg w l (bumpState l st)).2.1]
        exact hab
      have hev1 : (processRecord cfg w true l st).events
          = st.events ++ [⟨l.id, l.updatedAt, some code⟩] := by
        rw [hpr, hev, (annotateStep_frame cfg w l (bumpState l st)).1, hu2']
        rfl
      have hPt : ∀ l2 ∈ t, ∃ rr, (processRecord cfg w true l st).store l2.id = some rr ∧
          rr.updatedAt = l2.updatedAt ∧ rr.isStarred = starFlag l2 ∧
          rr.webhook_last_updatedAt = none := by
        intro l2 hl2
        obtain ⟨rr, hrr, h1, h2, h3⟩ := hP l2 (List.mem_cons_of_mem l hl2)
        refine ⟨rr, ?_, h1, h2, h3⟩
        rw [processRecord_store_frame cfg w true l st l2.id ?_]
        · exact hrr
        · intro hidEq
          exact hnd.1 (hidEq ▸ List.mem_map_of_mem Lifelog.id hl2)
      obtain ⟨habT, hevT⟩ := ih (processRecord cfg w true l st) hab1 hnd.2
        (fun l2 hl2 => hver l2 (List.mem_cons_of_mem l hl2)) hPt
      constructor
      · exact habT
      · show (processPage cfg w true t (processRecord cfg w true l st)).events.map _ = _
        rw [hevT, hev1]
        simp

/-- A source whose whole collection fits on page 0 (no next cursor). -/
def srcOnePage (ls : List Lifelog) : Src :=
  fun k => if k = 0 then (ls, false) else ([], false)

theorem fullBackfill_onePage (cfg : Config) (w : World) (ls : List Lifelog)
    (hnotify : cfg.backfillNotify = false) :
    fullBackfill cfg w (srcOnePage ls) sys0
      = ({ processPage cfg w false ls sys0 with flag := true }, 1) := by
  have hab' : (processPage cfg w false ls sys0).aborted = false :=
    (processPage_false_events cfg w ls sys0).2
  have h0 : srcOnePage ls 0 = (ls, false) := rfl
  have hgo : backfillGo cfg w (srcOnePage ls) sys0 0 1000
      = (processPage cfg w false ls sys0, 1) := by
    show backfillGo cfg w (srcOnePage ls) sys0 0 (999 + 1) = _
    rw [backfillGo, hnotify, h0]
    rw [if_neg (by simpa using hab'), if_neg (by simp)]
  unfold fullBackfill
  rw [hgo]
  rw [if_neg (by simp [hab'])]

theorem incrementalScan_onePage (cfg : Config) (w : World) (ls : List Lifelog) (st : Sys)
    (hmax : 1 ≤ cfg.maxPages) (hab : st.aborted = false)
    (hw : ∀ n, w.sink n ≠ SinkResult.netFail) (hnd : (ls.map Lifelog.id).Nodup)
    (hver : ∀ l2 ∈ ls, (l2.updatedAt).isSome)
    (hP : ∀ l2 ∈ ls, ∃ r, st.store l2.id = some r ∧ r.updatedAt = l2.updatedAt ∧
      r.isStarred = starFlag l2 ∧ r.webhook_last_updatedAt = none) :
    (incrementalScan cfg w (srcOnePage ls) st).1.events.map (fun e => (e.id, e.version))
      = st.events.map (fun e => (e.id, e.version))
        ++ ls.map (fun l2 => (l2.id, l2.updatedAt)) := by
  obtain ⟨f, hf⟩ : ∃ f, cfg.maxPages = f + 1 := ⟨cfg.maxPages - 1, by omega⟩
  unfold incrementalScan
  rw [hf]
  simp only [incScanGo]
  have h0 : srcOnePage ls 0 = (ls, false) := rfl
  by_cases hemp : ls.isEmpty
  · rw [if_pos (by simpa [h0] using hemp)]
    have : ls = [] := List.isEmpty_iff.mp hemp
    subst this
    simp
  · obtain ⟨habP, hevP⟩ := processPage_true_dispatch cfg w hw ls st hab hnd hver hP
    rw [if_neg (by simpa [h0] using hemp),
      if_neg (by simpa [h0] using habP),
      if_neg (by intro hcon; exact absurd hcon.1 (by omega)),
      if_pos (by simp [h0])]
    exact hevP

/-- C5 (claim theorem): with the backfill-notify flag disabled, a full
backfill of a one-page source from an empty store sends no
notifications and leaves `webhook_last_updatedAt` null on every stored
row; the first subsequent incremental scan over the unchanged source
then dispatches exactly one notification per record, in order, each
carrying the record's `updatedAt`. -/
theorem backfill_then_scan_notifies_once (cfg : Config) (w : World) (ls : List Lifelog)
    (hnotify : cfg.backfillNotify = false)
    (hmax : 1 ≤ cfg.maxPages)
    (hw : ∀ n, w.sink n ≠ SinkResult.netFail)
    (hids : (ls.map Lifelog.id).Nodup)
    (hver : ∀ l2 ∈ ls, (l2.updatedAt).isSome) :
    (fullBackfill cfg w (srcOnePage ls) sys0).1.events = [] ∧
    (∀ i r, (fullBackfill cfg w (srcOnePage ls) sys0).1.store i = some r →
      r.webhook_last_updatedAt = none) ∧
    ((incrementalScan cfg w (srcOnePage ls)
        (fullBackfill cfg w (srcOnePage ls) sys0).1).1.events.map
          (fun e => (e.id, e.version))
      = ls.map (fun l2 => (l2.id, l2.updatedAt))) := by
  have hinv0 : ∀ i r, sys0.store i = some r → r.webhook_last_updatedAt = none := by
    intro i r h
    exact Option.noConfusion h
  obtain ⟨hinvB, hPB⟩ :=
    processPage_false_establishes cfg w ls sys0 rfl hids hinv0
  rw [fullBackfill_onePage cfg w ls hnotify]
  have habB : (processPage cfg w false ls sys0).aborted = false :=
    (processPage_false_events cfg w ls sys0).2
  have hevB : (processPage cfg w false ls sys0).events = [] :=
    (processPage_false_events cfg w ls sys0).1
  refine ⟨hevB, hinvB, ?_⟩
  have := incrementalScan_onePage cfg w ls
    { processPage cfg w false ls sys0 with flag := true }
    hmax habB hw hids hver hPB
  rw [this, hevB]
  simp

/-- Second concrete starred record. -/
def lB : Lifelog :=
  { id := "b", title := none, markdown := none, startTime := none,
    endTime := none, updatedAt := some 1, isStarred := true }

/-- Third concrete starred record. -/
def lC : Lifelog :=
  { id := "c", title := none, markdown := none, startTime := none,
    endTime := none, updatedAt := some 1, isStarred := true }

/-- The three-record source of the specification scenario. -/
def ls3 : List Lifelog := [lA, lB, lC]

/-- Witness for the C5 theorem on the 3-record scenario: 0 backfill
notifications, then exactly one per record on the first incremental
scan. -/
theorem backfill_then_scan_notifies_once_witness :
    cfgW.backfillNotify = false ∧ 1 ≤ cfgW.maxPages ∧
    (∀ n, worldOk.sink n ≠ SinkResult.netFail) ∧
    (ls3.map Lifelog.id).Nodup ∧
    (∀ l2 ∈ ls3, (l2.updatedAt).isSome) ∧
    ((fullBackfill cfgW worldOk (srcOnePage ls3) sys0).1.events = [] ∧
      (∀ i r, (fullBackfill cfgW worldOk (srcOnePage ls3) sys0).1.store i = some r →
        r.webhook_last_updatedAt = none) ∧
      ((incrementalScan cfgW worldOk (srcOnePage ls3)
          (fullBackfill cfgW worldOk (srcOnePage ls3) sys0).1).1.events.map
            (fun e => (e.id, e.version))
        = ls3.map (fun l2 => (l2.id, l2.updatedAt)))) :=
  ⟨rfl, by decide, fun n h => SinkResult.noConfusion h, by decide, by decide,
   backfill_then_scan_notifies_once cfgW worldOk ls3 rfl (by decide)
     (fun n h => SinkResult.noConfusion h) (by decide) (by decide)⟩

/-! ### At-most-one primary notification per (id, version) -/

/-- Per-id monotone order between two fetched records: if they carry
the same id, the earlier one's version is at most the later one's. -/
def monoRel (a b : Lifelog) : Prop :=
  a.id = b.id → ∀ u v, a.updatedAt = some u → b.updatedAt = some v → u ≤ v

/-- The stored versions are dominated by every future fetched version
of the same id (`F` is the set of records still to be fetched). -/
def Compat (st : Sys) (F : Lifelog → Prop) : Prop :=
  ∀ i r u, st.store i = some r → r.updatedAt = some u →
    ∀ l2, F l2 → l2.id = i → ∀ v, l2.updatedAt = some v → u ≤ v

/-- The dispatch invariant: every stored row carries a version; no
(id, version) pair has been dispatched twice; and every dispatched
(id, version) is anchored in the store — the stored version dominates
it, and when they are equal the notified version equals it too, which
is what makes the eligibility check refuse a re-dispatch. -/
structure DInv (st : Sys) : Prop where
  rows : ∀ i r, st.store i = some r → (r.updatedAt).isSome
  once : ∀ i v, evCount st.events i v ≤ 1
  anchored : ∀ e ∈ st.events, ∀ v, e.version = some v →
    ∃ r u, st.store e.id = some r ∧ r.updatedAt = some u ∧ v ≤ u ∧
      (u = v → r.webhook_last_updatedAt = some v)

theorem evCount_append (evs : List DispatchEvent) (e : DispatchEvent)
    (i : String) (v : Nat) :
    evCount (evs ++ [e]) i v =
      evCount evs i v + (if e.id = i ∧ e.version = some v then 1 else 0) := by
  simp only [evCount, List.filter_append, List.length_append, List.filter_singleton]
  by_cases h : e.id = i ∧ e.version = some v
  · have hb : (e.id == i && e.version == some v) = true := by simpa using h
    rw [if_pos h]
    simp [hb]
  · have hb : (e.id == i && e.version == some v) = false := by simpa using h
    rw [if_neg h]
    simp [hb]

theorem evCount_pos (evs : List DispatchEvent) (i : String) (v : Nat)
    (h : 1 ≤ evCount evs i v) :
    ∃ e ∈ evs, e.id = i ∧ e.version = some v := by
  unfold evCount at h
  have hpos : 0 < (List.filter (fun e => e.id == i && e.version == some v) evs).length := by
    omega
  obtain ⟨e, he⟩ := List.exists_mem_of_length_pos hpos
  rw [List.mem_filter] at he
  exact ⟨e, he.1, by simpa using he.2⟩

theorem annotate_mid_inv (cfg : Config) (w : World) (l : Lifelog) (v' : Nat)
    (hv : l.updatedAt = some v') (st : Sys) (hInv : DInv st)
    (hcomp : ∀ r u, st.store l.id = some r → r.updatedAt = some u → u ≤ v')
    (F : Lifelog → Prop) (hF : Compat st F)
    (hfut : ∀ l2, F l2 → l2.id = l.id → ∀ v2, l2.updatedAt = some v2 → v' ≤ v2) :
    DInv (annotateStep cfg w l (bumpState l st)) ∧
    Compat (annotateStep cfg w l (bumpState l st)) F := by
  obtain ⟨r1, hr1, hu1, hs1, hw1, ha1⟩ := reconcile_self (st.clock + 1) l st.store
  obtain ⟨r2, hr2, hu2, hs2, hw2E, han2, _⟩ :=
    annotateStep_self cfg w l (bumpState l st) r1 hr1
  have hr2u : r2.updatedAt = some v' := by rw [hu2, hu1, hv]
  have hr2w : r2.webhook_last_updatedAt = oWlu (st.store l.id) := by rw [hw2E, hw1]
  have hMev : (annotateStep cfg w l (bumpState l st)).events = st.events :=
    (annotateStep_frame cfg w l (bumpState l st)).1
  have hMoth : ∀ j, j ≠ l.id →
      (annotateStep cfg w l (bumpState l st)).store j = st.store j := by
    intro j hj
    rw [(annotateStep_frame cfg w l (bumpState l st)).2.2.2.2.2 j hj]
    exact reconcile_other (st.clock + 1) l st.store j hj
  constructor
  · refine ⟨?_, ?_, ?_⟩
    · intro i r hr
      by_cases hi : i = l.id
      · subst hi
        rw [hr2] at hr
        injection hr with hh
        subst hh
        rw [hr2u]
        rfl
      · rw [hMoth i hi] at hr
        exact hInv.rows i r hr
    · intro i v
      rw [show evCount (annotateStep cfg w l (bumpState l st)).events i v
        = evCount st.events i v from by rw [hMev]]
      exact hInv.once i v
    · intro e he v hev
      rw [hMev] at he
      obtain ⟨rSt, uSt, hrSt, huSt, hvle, hcond⟩ := hInv.anchored e he v hev
      by_cases hi : e.id = l.id
      · have hrSt' : st.store l.id = some rSt := hi ▸ hrSt
        have hult : uSt ≤ v' := hcomp rSt uSt hrSt' huSt
        refine ⟨r2, v', ?_, hr2u, le_trans hvle hult, ?_⟩
        · rw [hi]
          exact hr2
        · intro hveq
          have huv : uSt = v := le_antisymm (hveq ▸ hult) hvle
          have hwst : rSt.webhook_last_updatedAt = some v := hcond huv
          rw [hr2w, hrSt']
          simpa [oWlu] using hwst
      · refine ⟨rSt, uSt, ?_, huSt, hvle, hcond⟩
        rw [hMoth e.id hi]
        exact hrSt
  · intro i r u hr hu l2 hFl2 hid v2 hv2
    by_cases hi : i = l.id
    · subst hi
      rw [hr2] at hr
      injection hr with hh
      subst hh
      rw [hr2u] at hu
      injection hu with huu
      rw [← huu]
      exact hfut l2 hFl2 hid v2 hv2
    · rw [hMoth i hi] at hr
      exact hF i r u hr hu l2 hFl2 hid v2 hv2

theorem processRecord_dinv (cfg : Config) (w : World)
    (hw : ∀ n, w.sink n ≠ SinkResult.netFail)
    (b : Bool) (l : Lifelog) (v' : Nat) (hv : l.updatedAt = some v')
    (st : Sys) (hInv : DInv st)
    (hcomp : ∀ r u, st.store l.id = some r → r.updatedAt = some u → u ≤ v')
    (F : Lifelog → Prop) (hF : Compat st F)
    (hfut : ∀ l2, F l2 → l2.id = l.id → ∀ v2, l2.updatedAt = some v2 → v' ≤ v2) :
    DInv (processRecord cfg w b l st) ∧ Compat (processRecord cfg w b l st) F := by
  by_cases hab : st.aborted
  · rw [processRecord_aborted cfg w b l st hab]
    exact ⟨hInv, hF⟩
  · rw [processRecord_eq cfg w b l st (by simpa using hab)]
    obtain ⟨hInvM, hFM⟩ := annotate_mid_inv cfg w l v' hv st hInv hcomp F hF hfut
    cases b with
    | false =>
      rw [if_neg (by simp)]
      exact ⟨hInvM, hFM⟩
    | true =>
      rw [if_pos rfl]
      obtain ⟨r1, hr1, hu1, hs1, hw1, ha1⟩ := reconcile_self (st.clock + 1) l st.store
      obtain ⟨r2, hr2, hu2, hs2, hw2E, han2, _⟩ :=
        annotateStep_self cfg w l (bumpState l st) r1 hr1
      have hr2u : r2.updatedAt = some v' := by rw [hu2, hu1, hv]
      by_cases hel : r2.webhook_last_updatedAt = r2.updatedAt
      · rw [dispatchStep_noop cfg w l _ r2 hr2 hel]
        exact ⟨hInvM, hFM⟩
      · cases hsk : w.sink (annotateStep cfg w l (bumpState l st)).sinkCalls with
        | netFail => exact absurd hsk (hw _)
        | status code =>
          obtain ⟨hev, habd, hclk, hflg, hself, hoth⟩ :=
            dispatchStep_send cfg w l _ r2 code hr2 hel hsk
          have hMev : (annotateStep cfg w l (bumpState l st)).events = st.events :=
            (annotateStep_frame cfg w l (bumpState l st)).1
          constructor
          · refine ⟨?_, ?_, ?_⟩
            · intro i r hr
              by_cases hi : i = l.id
              · subst hi
                rw [hself] at hr
                injection hr with hh
                subst hh
                show r2.updatedAt.isSome = true
                rw [hr2u]
                rfl
              · rw [hoth i hi] at hr
                exact hInvM.rows i r hr
            · intro i v
              rw [show (dispatchStep cfg w l (annotateStep cfg w l (bumpState l st))).events
                  = (annotateStep cfg w l (bumpState l st)).events
                    ++ [⟨l.id, r2.updatedAt, some code⟩] from hev]
              rw [evCount_append]
              by_cases hmatch : l.id = i ∧ r2.updatedAt = some v
              · rw [if_pos (by exact hmatch)]
                obtain ⟨hii, hvv⟩ := hmatch
                have hv'v : v' = v := by
                  rw [hr2u] at hvv
                  injection hvv
                have hzero :
                    evCount (annotateStep cfg w l (bumpState l st)).events i v = 0 := by
                  by_contra hnz
                  have hpos :
                      1 ≤ evCount (annotateStep cfg w l (bumpState l st)).events i v := by
                    omega
                  obtain ⟨e, heM, heid, hever⟩ :=
                    evCount_pos (annotateStep cfg w l (bumpState l st)).events i v hpos
                  obtain ⟨rM, uM, hrM, huM, hle, hcondM⟩ := hInvM.anchored e heM v hever
                  rw [heid, ← hii] at hrM
                  rw [hr2] at hrM
                  injection hrM with hh
                  rw [← hh] at huM hcondM
                  rw [hr2u] at huM
                  injection huM with huu
                  have hwlu : r2.webhook_last_updatedAt = some v :=
                    hcondM (by omega)
                  apply hel
                  rw [hwlu, hr2u, hv'v]
                · omega
              · rw [if_neg hmatch]
                have := hInvM.once i v
                omega
            · intro e he v hever
              rw [show (dispatchStep cfg w l (annotateStep cfg w l (bumpState l st))).events
                  = (annotateStep cfg w l (bumpState l st)).events
                    ++ [⟨l.id, r2.updatedAt, some code⟩] from hev] at he
              rw [List.mem_append, List.mem_singleton] at he
              rcases he with heM | rfl
              · obtain ⟨rM, uM, hrM, huM, hle, hcondM⟩ := hInvM.anchored e heM v hever
                by_cases hi : e.id = l.id
                · have hrM' :
                      (annotateStep cfg w l (bumpState l st)).store l.id = some rM :=
                    hi ▸ hrM
                  rw [hr2] at hrM'
                  injection hrM' with hh
                  rw [← hh] at huM
                  rw [hr2u] at huM
                  injection huM with huu
                  refine ⟨_, v', hi ▸ hself, ?_, ?_, ?_⟩
                  · exact hr2u
                  · omega
                  · intro hveq
                    show r2.updatedAt = some v
                    rw [hr2u, hveq]
                · refine ⟨rM, uM, ?_, huM, hle, hcondM⟩
                  rw [hoth e.id hi]
                  exact hrM
              · have hvv : r2.updatedAt = some v := hever
                have hv'v : v' = v := by
                  rw [hr2u] at hvv
                  injection hvv
                refine ⟨_, v', hself, ?_, ?_, ?_⟩
                · exact hr2u
                · omega
                · intro hveq
                  show r2.updatedAt = some v
                  rw [hr2u, hveq]
          · intro i r u hr hu l2 hFl2 hid v2 hv2
            by_cases hi : i = l.id
            · subst hi
              rw [hself] at hr
              injection hr with hh
              subst hh
              have hu' : r2.updatedAt = some u := hu
              rw [hr2u] at hu'
              injection hu' with huu
              rw [← huu]
              exact hfut l2 hFl2 hid v2 hv2
            · rw [hoth i hi] at hr
              exact hFM i r u hr hu l2 hFl2 hid v2 hv2

theorem processPage_dinv (cfg : Config) (w : World)
    (hw : ∀ n, w.sink n ≠ SinkResult.netFail) (b : Bool) :
    ∀ (ls : List Lifelog) (st : Sys) (F : Lifelog → Prop),
      DInv st →
      (∀ l2 ∈ ls, (l2.updatedAt).isSome) →
      List.Pairwise monoRel ls →
      Compat st (fun l2 => l2 ∈ ls) →
      Compat st F →
      (∀ l2 ∈ ls, ∀ l3, F l3 → monoRel l2 l3) →
      DInv (processPage cfg w b ls st) ∧ Compat (processPage cfg w b ls st) F := by
  intro ls
  induction ls with
  | nil =>
    intro st F hInv _ _ _ hF _
    exact ⟨hInv, hF⟩
  | cons l t ih =>
    intro st F hInv hver hpw hcl hF hcross
    rw [List.pairwise_cons] at hpw
    obtain ⟨v', hv⟩ := Option.isSome_iff_exists.mp (hver l (List.mem_cons_self l t))
    have hstep := processRecord_dinv cfg w hw b l v' hv st hInv
      (fun r u hr hu => hcl l.id r u hr hu l (List.mem_cons_self l t) rfl v' hv)
      (fun l2 => l2 ∈ t ∨ F l2)
      (by
        intro i r u hr hu l2 h12 hid v2 hv2
        rcases h12 with h12 | h12
        · exact hcl i r u hr hu l2 (List.mem_cons_of_mem l h12) hid v2 hv2
        · exact hF i r u hr hu l2 h12 hid v2 hv2)
      (by
        intro l2 h12 hid v2 hv2
        rcases h12 with h12 | h12
        · exact hpw.1 l2 h12 hid.symm v' v2 hv hv2
        · exact hcross l (List.mem_cons_self l t) l2 h12 hid.symm v' v2 hv hv2)
    obtain ⟨hInv1, hC1⟩ := hstep
    have hres := ih (processRecord cfg w b l st) F hInv1
      (fun l2 hl2 => hver l2 (List.mem_cons_of_mem l hl2)) hpw.2
      (by
        intro i r u hr hu l2 h12 hid v2 hv2
        exact hC1 i r u hr hu l2 (Or.inl h12) hid v2 hv2)
      (by
        intro i r u hr hu l2 h12 hid v2 hv2
        exact hC1 i r u hr hu l2 (Or.inr h12) hid v2 hv2)
      (fun l2 hl2 l3 h3 => hcross l2 (List.mem_cons_of_mem l hl2) l3 h3)
    exact hres

/-- Records on pages `k` onward of a source. -/
def SrcFut (src : Src) (k : Nat) (l2 : Lifelog) : Prop :=
  ∃ k2, k ≤ k2 ∧ l2 ∈ (src k2).1

/-- A source stream that is per-id monotone within and across pages. -/
def MonoSrc (src : Src) : Prop :=
  (∀ k, List.Pairwise monoRel (src k).1) ∧
  (∀ k1 k2, k1 < k2 → ∀ l1 ∈ (src k1).1, ∀ l2 ∈ (src k2).1, monoRel l1 l2)

/-- Every record of the source carries a version. -/
def SrcVers (src : Src) : Prop := ∀ k, ∀ l2 ∈ (src k).1, (l2.updatedAt).isSome

theorem incScanGo_dinv (cfg : Config) (w : World)
    (hw : ∀ n, w.sink n ≠ SinkResult.netFail) (src : Src)
    (hm : MonoSrc src) (hvers : SrcVers src) :
    ∀ (fuel : Nat) (st : Sys) (pd : Nat) (F : Lifelog → Prop),
      DInv st →
      Compat st (SrcFut src pd) →
      Compat st F →
      (∀ k, ∀ l2 ∈ (src k).1, ∀ l3, F l3 → monoRel l2 l3) →
      DInv (incScanGo cfg w src st pd fuel).1 ∧
      Compat (incScanGo cfg w src st pd fuel).1 F := by
  intro fuel
  induction fuel with
  | zero =>
    intro st pd F hInv _ hCF _
    exact ⟨hInv, hCF⟩
  | succ n ih =>
    intro st pd F hInv hCsrc hCF hcross
    simp only [incScanGo]
    have hpage := processPage_dinv cfg w hw true (src pd).1 st
      (fun l2 => SrcFut src (pd + 1) l2 ∨ F l2)
      hInv (hvers pd) (hm.1 pd)
      (by
        intro i r u hr hu l2 h12 hid v2 hv2
        exact hCsrc i r u hr hu l2 ⟨pd, le_refl pd, h12⟩ hid v2 hv2)
      (by
        intro i r u hr hu l2 h12 hid v2 hv2
        rcases h12 with ⟨k2, hk2, hmem⟩ | h12
        · exact hCsrc i r u hr hu l2 ⟨k2, by omega, hmem⟩ hid v2 hv2
        · exact hCF i r u hr hu l2 h12 hid v2 hv2)
      (by
        intro l2 h2 l3 h3
        rcases h3 with ⟨k2, hk2, hmem⟩ | h3
        · exact hm.2 pd k2 (by omega) l2 h2 l3 hmem
        · exact hcross pd l2 h2 l3 h3)
    obtain ⟨hInvP, hCP⟩ := hpage
    have hCPsrc : Compat (processPage cfg w true (src pd).1 st) (SrcFut src (pd + 1)) := by
      intro i r u hr hu l2 h12 hid v2 hv2
      exact hCP i r u hr hu l2 (Or.inl h12) hid v2 hv2
    have hCPF : Compat (processPage cfg w true (src pd).1 st) F := by
      intro i r u hr hu l2 h12 hid v2 hv2
      exact hCP i r u hr hu l2 (Or.inr h12) hid v2 hv2
    by_cases h1 : (src pd).1.isEmpty
    · rw [if_pos h1]
      exact ⟨hInv, hCF⟩
    · rw [if_neg h1]
      by_cases h2 : (processPage cfg w true (src pd).1 st).aborted
      · rw [if_pos h2]
        exact ⟨hInvP, hCPF⟩
      · rw [if_neg h2]
        by_cases h3 : pd + 1 ≥ 3 ∧
            5 * upToDateCount (processPage cfg w true (src pd).1 st).store (src pd).1
              ≥ 4 * (src pd).1.length
        · rw [if_pos h3]
          exact ⟨hInvP, hCPF⟩
        · rw [if_neg h3]
          by_cases h4 : (src pd).2 = false
          · rw [if_pos h4]
            exact ⟨hInvP, hCPF⟩
          · rw [if_neg h4]
            exact ih (processPage cfg w true (src pd).1 st) (pd + 1) F
              hInvP hCPsrc hCPF hcross

theorem backfillGo_dinv (cfg : Config) (w : World)
    (hw : ∀ n, w.sink n ≠ SinkResult.netFail) (src : Src)
    (hm : MonoSrc src) (hvers : SrcVers src) :
    ∀ (fuel : Nat) (st : Sys) (pd : Nat) (F : Lifelog → Prop),
      DInv st →
      Compat st (SrcFut src pd) →
      Compat st F →
      (∀ k, ∀ l2 ∈ (src k).1, ∀ l3, F l3 → monoRel l2 l3) →
      DInv (backfillGo cfg w src st pd fuel).1 ∧
      Compat (backfillGo cfg w src st pd fuel).1 F := by
  intro fuel
  induction fuel with
  | zero =>
    intro st pd F hInv _ hCF _
    exact ⟨hInv, hCF⟩
  | succ n ih =>
    intro st pd F hInv hCsrc hCF hcross
    simp only [backfillGo]
    have hpage := processPage_dinv cfg w hw cfg.backfillNotify (src pd).1 st
      (fun l2 => SrcFut src (pd + 1) l2 ∨ F l2)
      hInv (hvers pd) (hm.1 pd)
      (by
        intro i r u hr hu l2 h12 hid v2 hv2
        exact hCsrc i r u hr hu l2 ⟨pd, le_refl pd, h12⟩ hid v2 hv2)
      (by
        intro i r u hr hu l2 h12 hid v2 hv2
        rcases h12 with ⟨k2, hk2, hmem⟩ | h12
        · exact hCsrc i r u hr hu l2 ⟨k2, by omega, hmem⟩ hid v2 hv2
        · exact hCF i r u hr hu l2 h12 hid v2 hv2)
      (by
        intro l2 h2 l3 h3
        rcases h3 with ⟨k2, hk2, hmem⟩ | h3
        · exact hm.2 pd k2 (by omega) l2 h2 l3 hmem
        · exact hcross pd l2 h2 l3 h3)
    obtain ⟨hInvP, hCP⟩ := hpage
    have hCPsrc : Compat (processPage cfg w cfg.backfillNotify (src pd).1 st)
        (SrcFut src (pd + 1)) := by
      intro i r u hr hu l2 h12 hid v2 hv2
      exact hCP i r u hr hu l2 (Or.inl h12) hid v2 hv2
    have hCPF : Compat (processPage cfg w cfg.backfillNotify (src pd).1 st) F := by
      intro i r u hr hu l2 h12 hid v2 hv2
      exact hCP i r u hr hu l2 (Or.inr h12) hid v2 hv2
    by_cases h2 : (processPage cfg w cfg.backfillNotify (src pd).1 st).aborted
    · rw [if_pos h2]
      exact ⟨hInvP, hCPF⟩
    · rw [if_neg h2]
      by_cases h3 : (src pd).2 = true ∧ pd + 1 < 1000
      · rw [if_pos h3]
        exact ih (processPage cfg w cfg.backfillNotify (src pd).1 st) (pd + 1) F
          hInvP hCPsrc hCPF hcross
      · rw [if_neg h3]
        exact ⟨hInvP, hCPF⟩

/-- Records appearing anywhere in a run's source. -/
def InSrcRun (r : RunSpec) (l2 : Lifelog) : Prop := ∃ k, l2 ∈ ((runSrc r) k).1

theorem execRun_dinv (cfg : Config) (w : World)
    (hw : ∀ n, w.sink n ≠ SinkResult.netFail) (r : RunSpec) (st : Sys)
    (F : Lifelog → Prop)
    (hm : MonoSrc (runSrc r)) (hvers : SrcVers (runSrc r))
    (hInv : DInv st) (hCr : Compat st (InSrcRun r)) (hCF : Compat st F)
    (hcross : ∀ l2, InSrcRun r l2 → ∀ l3, F l3 → monoRel l2 l3) :
    DInv (execRun cfg w st r) ∧ Compat (execRun cfg w st r) F := by
  have hInv' : DInv (resetAbort st) := ⟨hInv.rows, hInv.once, hInv.anchored⟩
  cases r with
  | scan src =>
    show DInv (incrementalScan cfg w src (resetAbort st)).1 ∧
      Compat (incrementalScan cfg w src (resetAbort st)).1 F
    unfold incrementalScan
    exact incScanGo_dinv cfg w hw src hm hvers cfg.maxPages (resetAbort st) 0 F
      hInv'
      (by
        intro i rr u hr hu l2 h2 hid v2 hv2
        obtain ⟨k2, _, hmem⟩ := h2
        exact hCr i rr u hr hu l2 ⟨k2, hmem⟩ hid v2 hv2)
      hCF
      (fun k l2 h2 l3 h3 => hcross l2 ⟨k, h2⟩ l3 h3)
  | backfill src =>
    show DInv (fullBackfill cfg w src (resetAbort st)).1 ∧
      Compat (fullBackfill cfg w src (resetAbort st)).1 F
    obtain ⟨hI, hC⟩ := backfillGo_dinv cfg w hw src hm hvers 1000 (resetAbort st) 0 F
      hInv'
      (by
        intro i rr u hr hu l2 h2 hid v2 hv2
        obtain ⟨k2, _, hmem⟩ := h2
        exact hCr i rr u hr hu l2 ⟨k2, hmem⟩ hid v2 hv2)
      hCF
      (fun k l2 h2 l3 h3 => hcross l2 ⟨k, h2⟩ l3 h3)
    unfold fullBackfill
    by_cases habf : (backfillGo cfg w src (resetAbort st) 0 1000).1.aborted
    · rw [if_pos habf]
      exact ⟨hI, hC⟩
    · rw [if_neg habf]
      exact ⟨⟨hI.rows, hI.once, hI.anchored⟩, hC⟩

theorem execRuns_dinv (cfg : Config) (w : World)
    (hw : ∀ n, w.sink n ≠ SinkResult.netFail) :
    ∀ (rs : List RunSpec) (st : Sys),
      (∀ r ∈ rs, MonoSrc (runSrc r)) →
      (∀ r ∈ rs, SrcVers (runSrc r)) →
      List.Pairwise
        (fun r1 r2 => ∀ l1, InSrcRun r1 l1 → ∀ l2, InSrcRun r2 l2 → monoRel l1 l2) rs →
      DInv st →
      Compat st (fun l2 => ∃ r ∈ rs, InSrcRun r l2) →
      DInv (execRuns cfg w st rs) := by
  intro rs
  induction rs with
  | nil =>
    intro st _ _ _ hInv _
    exact hInv
  | cons r t ih =>
    intro st hm hvers hpw hInv hC
    rw [List.pairwise_cons] at hpw
    obtain ⟨hstep1, hC'⟩ := execRun_dinv cfg w hw r st
      (fun l2 => ∃ r2 ∈ t, InSrcRun r2 l2)
      (hm r (List.mem_cons_self r t)) (hvers r (List.mem_cons_self r t))
      hInv
      (by
        intro i rr u hr hu l2 h2 hid v2 hv2
        exact hC i rr u hr hu l2 ⟨r, List.mem_cons_self r t, h2⟩ hid v2 hv2)
      (by
        intro i rr u hr hu l2 h2 hid v2 hv2
        obtain ⟨r2, hr2, h2'⟩ := h2
        exact hC i rr u hr hu l2 ⟨r2, List.mem_cons_of_mem r hr2, h2'⟩ hid v2 hv2)
      (by
        intro l2 h2 l3 h3
        obtain ⟨r2, hr2, h3'⟩ := h3
        exact hpw.1 r2 hr2 l2 h2 l3 h3')
    exact ih (execRun cfg w st r)
      (fun r2 h => hm r2 (List.mem_cons_of_mem r h))
      (fun r2 h => hvers r2 (List.mem_cons_of_mem r h))
      hpw.2 hstep1 hC'

/-- A world whose primary sink fails at network level on the first
call and answers 200 afterwards. -/
def worldNF1 : World :=
  { sink := fun n => if n = 0 then .netFail else .status 200,
    sink2 := fun _ => .status 200, svc := fun _ _ => .httpError 500,
    summarize := fun _ => none }

theorem monoSrcA : MonoSrc srcA := by
  constructor
  · intro k
    by_cases hk : k = 0 <;> simp [srcA, hk]
  · intro k1 k2 hlt l1 h1 l2 h2
    have hk2 : k2 ≠ 0 := by omega
    simp [srcA, hk2] at h2

theorem srcVersA : SrcVers srcA := by
  intro k l2 h2
  by_cases hk : k = 0
  · simp [srcA, hk] at h2
    subst h2
    rfl
  · simp [srcA, hk] at h2

/-- C3 counterexample: over two incremental scans of the unchanged
one-record source (whose per-id versions are trivially monotone), with
the primary sink failing at network level on the first call, the
dispatcher invokes the primary send twice for the same
(id, updatedAt) pair — the first attempt aborts unrecorded, so the
second run finds the record still eligible. -/
theorem notify_dup_on_netfail_cex :
    evCount (execRuns cfgW worldNF1 sys0
      [RunSpec.scan srcA, RunSpec.scan srcA]).events "a" 1 = 2 ∧
    (execRuns cfgW worldNF1 sys0 [RunSpec.scan srcA, RunSpec.scan srcA]).events
      = [⟨"a", some 1, none⟩, ⟨"a", some 1, some 200⟩] ∧
    MonoSrc srcA :=
  ⟨rfl, rfl, monoSrcA⟩

/-- C3 amended theorem: provided every primary send attempt receives
an HTTP response (no network-level sink failure), then across any
sequence of backfill and incremental scan runs whose sources are
per-id monotonically non-decreasing (within pages, across pages, and
across runs) with every fetched record carrying a version, at most one
primary-sink notification is sent per (id, updatedAt) pair; moreover a
record whose `webhook_last_updatedAt` equals its `updatedAt` is never
re-dispatched (the dispatch step is a no-op), and one whose
`webhook_last_updatedAt` differs is dispatched, appending exactly one
notification for its current version. -/
theorem at_most_once_per_version (cfg : Config) (w : World) (rs : List RunSpec)
    (hw : ∀ n, w.sink n ≠ SinkResult.netFail)
    (hm : ∀ r ∈ rs, MonoSrc (runSrc r))
    (hvers : ∀ r ∈ rs, SrcVers (runSrc r))
    (hpw : List.Pairwise
      (fun r1 r2 => ∀ l1, InSrcRun r1 l1 → ∀ l2, InSrcRun r2 l2 → monoRel l1 l2) rs) :
    (∀ i v, evCount (execRuns cfg w sys0 rs).events i v ≤ 1) ∧
    (∀ (l : Lifelog) (st : Sys) (c2 : Row), st.store l.id = some c2 →
      c2.webhook_last_updatedAt = c2.updatedAt →
      dispatchStep cfg w l st = st) ∧
    (∀ (l : Lifelog) (st : Sys) (c2 : Row) (code : Nat), st.store l.id = some c2 →
      c2.webhook_last_updatedAt ≠ c2.updatedAt → w.sink st.sinkCalls = .status code →
      (dispatchStep cfg w l st).events
        = st.events ++ [⟨l.id, c2.updatedAt, some code⟩]) := by
  refine ⟨?_, ?_, ?_⟩
  · have hInv0 : DInv sys0 :=
      ⟨fun i r h => Option.noConfusion h,
       fun i v => by simp [evCount, sys0],
       fun e he => absurd he (List.not_mem_nil e)⟩
    have hC0 : Compat sys0 (fun l2 => ∃ r ∈ rs, InSrcRun r l2) :=
      fun i r u hr => Option.noConfusion hr
    exact (execRuns_dinv cfg w hw rs sys0 hm hvers hpw hInv0 hC0).once
  · intro l st c2 h heq
    exact dispatchStep_noop cfg w l st c2 h heq
  · intro l st c2 code h hne hs
    exact (dispatchStep_send cfg w l st c2 code h hne hs).1

/-- Witness for the C3 amended theorem: one scan of the one-record
source with an always-responding sink. -/
theorem at_most_once_per_version_witness :
    (∀ n, worldOk.sink n ≠ SinkResult.netFail) ∧
    (∀ r ∈ [RunSpec.scan srcA], MonoSrc (runSrc r)) ∧
    (∀ r ∈ [RunSpec.scan srcA], SrcVers (runSrc r)) ∧
    List.Pairwise
      (fun r1 r2 => ∀ l1, InSrcRun r1 l1 → ∀ l2, InSrcRun r2 l2 → monoRel l1 l2)
      [RunSpec.scan srcA] ∧
    (∀ i v, evCount (execRuns cfgW worldOk sys0 [RunSpec.scan srcA]).events i v ≤ 1) :=
  ⟨fun n h => SinkResult.noConfusion h,
   fun r hr => by
     rw [List.mem_singleton] at hr
     subst hr
     exact monoSrcA,
   fun r hr => by
     rw [List.mem_singleton] at hr
     subst hr
     exact srcVersA,
   List.pairwise_singleton _ _,
   (at_most_once_per_version cfgW worldOk [RunSpec.scan srcA]
     (fun n h => SinkResult.noConfusion h)
     (fun r hr => by
       rw [List.mem_singleton] at hr
       subst hr
       exact monoSrcA)
     (fun r hr => by
       rw [List.mem_singleton] at hr
       subst hr
       exact srcVersA)
     (List.pairwise_singleton _ _)).1⟩
